import Mathlib

/-!
Shallow embedding of the finora trading core (backend/trading/services.py,
backend/trading/matching_engine.py, backend/trading/views.py and the model
declarations of backend/trading/models.py, backend/wallets/models.py,
backend/markets/models.py).

Python `Decimal` arithmetic on the amounts involved is exact, so amounts are
modelled as rationals.  The Django ORM state (wallets, orders, trades and the
latest `MarketData` row of the single trading pair under consideration) is
modelled as an explicit `State` record; every service method becomes a pure
function from a state to an `Except`-value, an exception rolling back the
enclosing `transaction.atomic` block, so an `Except.error` result leaves the
state unchanged.

Modelling notes (deliberate abstractions from ORM-level detail):
* The append-only `Transaction` journal rows written by `place_order` and
  `cancel_order` are omitted; no service method ever reads them back.
* Auto-maintained columns (`created_at`/`updated_at` via `auto_now`, the
  derived `remaining_quantity` recomputed in `Order.save`) are not tracked;
  `created_at` is kept abstract as a `Nat` because candidate ordering reads
  it.
* Two places where the source raises unconditionally are embedded as the
  exceptions they raise:
  - the estimated-price lookup of `place_order`/`cancel_order`
    (services.py:30-32, 99-101) evaluates
    `MarketData.objects.filter(...).order_by('-last_updated').first()`, but
    `markets.models.MarketData` has no `last_updated` column (its column is
    `timestamp`), so Django raises `FieldError` when the queryset is
    evaluated; `estimatedMarketPrice` is therefore that exception, and the
    `market_data.price if market_data else Decimal('50000')` fallback on the
    next line is dead code;
  - `Trade.objects.create` in both matching loops
    (matching_engine.py:72-79, 152-159) passes a `timestamp` keyword the
    current `trading.models.Trade` does not declare (and leaves the model's
    non-nullable `trading_pair` and unique `trade_id` columns unset), so the
    model constructor raises `TypeError`; `matchStep` therefore ends in that
    exception after the two `fill_order` calls, and since both engine
    methods are `@transaction.atomic`, the escaping exception rolls the fills
    back — an `Except.error` result always leaves the state unchanged.
* The `trades` table is kept in the state, but no code path can append to it.
-/

unseal Rat.add Rat.sub Rat.mul Rat.inv

namespace Finora

abbrev UserId := Nat
abbrev CurrencyId := Nat
abbrev OrderId := Nat
abbrev Amount := ℚ

/-- `min` of the source's `min(remaining_quantity, counter_remaining)`,
written out so that it reduces on concrete rationals. -/
def amin (a b : Amount) : Amount := if a ≤ b then a else b

/-- `max(0, x)` of the clamp in `OrderService.cancel_order`. -/
def amax0 (a : Amount) : Amount := if a ≤ 0 then 0 else a

inductive Side where
  | buy
  | sell
deriving DecidableEq

inductive OrderType where
  | market
  | limit
  | stop
  | stop_limit
deriving DecidableEq

inductive OStatus where
  | pending
  | partial_filled
  | filled
  | cancelled
  | rejected
deriving DecidableEq

inductive TIF where
  | GTC
  | IOC
  | FOK
deriving DecidableEq

/-- wallets.models.Wallet: one row per (user, currency). -/
structure Wallet where
  user : UserId
  currency : CurrencyId
  balance : Amount
  frozen_balance : Amount
deriving DecidableEq

/-- trading.models.Order (the fields the trading core reads or writes). -/
structure Order where
  id : OrderId
  user : UserId
  order_type : OrderType
  side : Side
  price : Option Amount
  quantity : Amount
  filled_quantity : Amount
  status : OStatus
  time_in_force : TIF
  created_at : Nat
deriving DecidableEq

/-- The trade row the matching engine tries to create (aggressor order,
buyer, seller, quantity and price).  No such row is ever persisted: the
engine's `Trade.objects.create` call raises `TypeError` (see `matchStep`), so
the trade table only ever holds whatever rows the state started with. -/
structure Trade where
  orderId : OrderId
  buyer : UserId
  seller : UserId
  quantity : Amount
  price : Amount
deriving DecidableEq

/-- markets.models.TradingPair (the fields the trading core reads).  The fee
rate columns exist on the model (default 0.001) but are never read by the
order service or the matching engine. -/
structure TradingPair where
  base_currency : CurrencyId
  quote_currency : CurrencyId
  maker_fee : Amount
  taker_fee : Amount
deriving DecidableEq

/-- The database state relevant to one trading pair: wallet rows, order rows,
trade rows, and the price of the latest `MarketData` row for the pair
(`none` when no market data exists). -/
structure State where
  wallets : List Wallet
  orders : List Order
  trades : List Trade
  marketPrice : Option Amount
deriving DecidableEq

inductive Err where
  | validation
  | doesNotExist
  | valueError
  | fieldError
  | typeError
deriving DecidableEq

/-! ### Wallet primitives -/

def findWallet (ws : List Wallet) (u : UserId) (c : CurrencyId) : Option Wallet :=
  ws.find? fun w => decide (w.user = u) && decide (w.currency = c)

/-- `Wallet.objects.get_or_create`: the row is created (with zero balances)
only when absent. -/
def ensureWallet (ws : List Wallet) (u : UserId) (c : CurrencyId) : List Wallet :=
  match findWallet ws u c with
  | some _ => ws
  | none => ws ++ [⟨u, c, 0, 0⟩]

/-- Pointwise update adding `db` to the balance and `df` to the frozen
balance of the (user, currency) wallet. -/
def updWFn (u : UserId) (c : CurrencyId) (db df : Amount) (w : Wallet) : Wallet :=
  if decide (w.user = u) && decide (w.currency = c) then
    { w with balance := w.balance + db, frozen_balance := w.frozen_balance + df }
  else w

/-- Add `db` to the balance and `df` to the frozen balance of the
(user, currency) wallet. -/
def updW (ws : List Wallet) (u : UserId) (c : CurrencyId) (db df : Amount) : List Wallet :=
  ws.map (updWFn u c db df)

/-- Pointwise form of the clamped unfreeze of `cancel_order`. -/
def clampFn (u : UserId) (c : CurrencyId) (amt : Amount) (w : Wallet) : Wallet :=
  if decide (w.user = u) && decide (w.currency = c) then
    { w with frozen_balance := amax0 (w.frozen_balance - amt) }
  else w

/-- The clamped unfreeze of `cancel_order`: `frozen -= amt; if frozen < 0:
frozen = 0`. -/
def clampFrozen (ws : List Wallet) (u : UserId) (c : CurrencyId) (amt : Amount) : List Wallet :=
  ws.map (clampFn u c amt)

/-- `get_or_create` followed by a balance credit (the receiving side of
`fill_order`). -/
def creditWallet (ws : List Wallet) (u : UserId) (c : CurrencyId) (amt : Amount) : List Wallet :=
  updW (ensureWallet ws u c) u c amt 0

/-! ### Order primitives -/

def findOrder (s : State) (oid : OrderId) : Option Order :=
  s.orders.find? fun o => decide (o.id = oid)

def setStatusFn (oid : OrderId) (st : OStatus) (o : Order) : Order :=
  if decide (o.id = oid) then { o with status := st } else o

def setStatus (os : List Order) (oid : OrderId) (st : OStatus) : List Order :=
  os.map (setStatusFn oid st)

/-- The order bookkeeping of `fill_order` on one row: `filled_quantity += fq`,
status `filled` when `filled_quantity >= quantity` and `partial_filled`
otherwise. -/
def applyFillFn (oid : OrderId) (fq : Amount) (o : Order) : Order :=
  if decide (o.id = oid) then
    { o with
      filled_quantity := o.filled_quantity + fq,
      status := if o.quantity ≤ o.filled_quantity + fq then .filled else .partial_filled }
  else o

def applyFill (os : List Order) (oid : OrderId) (fq : Amount) : List Order :=
  os.map (applyFillFn oid fq)

/-! ### OrderService -/

/-- The estimated price used by `place_order`/`cancel_order` for market buys:
`MarketData.objects.filter(...).order_by('-last_updated').first()`
(services.py:30-32 and 99-101).  `markets.models.MarketData` has no
`last_updated` column — its timestamp column is called `timestamp` — so
evaluating this queryset raises `FieldError` before the
`market_data.price if market_data else Decimal('50000')` fallback can run.
The state (which may well contain market-data rows) is never successfully
read through this query. -/
def estimatedMarketPrice (_s : State) : Except Err Amount :=
  .error .fieldError

/-- The currency and amount frozen by `place_order`: quote currency and
`quantity * estimated_price` for buys (the estimated price coming from the
broken market-data lookup for market orders — which raises — and from the
submitted limit price otherwise), base currency and `quantity` for sells.
A buy without a price that is not a market order crashes in the source
(`None` arithmetic). -/
def reservation (s : State) (pair : TradingPair) (otype : OrderType) (sd : Side)
    (qty : Amount) (price : Option Amount) : Except Err (CurrencyId × Amount) :=
  match sd with
  | .buy =>
    match otype with
    | .market =>
      match estimatedMarketPrice s with
      | .error e => .error e
      | .ok p => .ok (pair.quote_currency, qty * p)
    | _ =>
      match price with
      | some p => .ok (pair.quote_currency, qty * p)
      | none => .error .valueError
  | .sell => .ok (pair.base_currency, qty)

/-- OrderService.place_order. -/
def placeOrder (pair : TradingPair) (s : State) (u : UserId) (otype : OrderType) (sd : Side)
    (qty : Amount) (price : Option Amount) (oid : OrderId) (now : Nat) : Except Err State :=
  match reservation s pair otype sd qty price with
  | .error e => .error e
  | .ok (cur, required) =>
    match findWallet (ensureWallet s.wallets u cur) u cur with
    | none => .error .doesNotExist
    | some w =>
      if w.balance - w.frozen_balance < required then .error .validation
      else
        .ok { s with
          wallets := updW (ensureWallet s.wallets u cur) u cur 0 required,
          orders := s.orders ++ [⟨oid, u, otype, sd, price, qty, 0, .pending, .GTC, now⟩] }

/-- The currency and frozen amount recomputed by `cancel_order` for the
unfilled remainder of an order. -/
def cancelFrozenAmount (s : State) (pair : TradingPair) (o : Order) :
    Except Err (CurrencyId × Amount) :=
  match o.side with
  | .buy =>
    match o.order_type with
    | .market =>
      match estimatedMarketPrice s with
      | .error e => .error e
      | .ok p => .ok (pair.quote_currency, (o.quantity - o.filled_quantity) * p)
    | _ =>
      match o.price with
      | some p => .ok (pair.quote_currency, (o.quantity - o.filled_quantity) * p)
      | none => .error .valueError
  | .sell => .ok (pair.base_currency, o.quantity - o.filled_quantity)

/-- OrderService.cancel_order: raises a ValidationError unless the order is
`pending` or `partial_filled`; otherwise unfreezes the recomputed remainder
(clamped at zero) and sets the status to `cancelled`. -/
def cancelOrder (pair : TradingPair) (s : State) (oid : OrderId) : Except Err State :=
  match findOrder s oid with
  | none => .error .doesNotExist
  | some o =>
    if o.status = .pending ∨ o.status = .partial_filled then
      match cancelFrozenAmount s pair o with
      | .error e => .error e
      | .ok (cur, amt) =>
        match findWallet s.wallets o.user cur with
        | none => .error .doesNotExist
        | some _ =>
          .ok { s with
            wallets := clampFrozen s.wallets o.user cur amt,
            orders := setStatus s.orders oid .cancelled }
    else .error .validation

/-- OrderService.fill_order.  For a buy the quote wallet (which must exist)
loses `fq * ep` from both balance and frozen balance and the base wallet
(auto-created) gains `fq`; for a sell symmetrically. -/
def fillOrder (pair : TradingPair) (s : State) (oid : OrderId) (fq ep : Amount) :
    Except Err State :=
  match findOrder s oid with
  | none => .error .doesNotExist
  | some o =>
    match o.side with
    | .buy =>
      match findWallet s.wallets o.user pair.quote_currency with
      | none => .error .doesNotExist
      | some _ =>
        .ok { s with
          wallets :=
            creditWallet
              (updW s.wallets o.user pair.quote_currency (-(fq * ep)) (-(fq * ep)))
              o.user pair.base_currency fq,
          orders := applyFill s.orders oid fq }
    | .sell =>
      match findWallet s.wallets o.user pair.base_currency with
      | none => .error .doesNotExist
      | some _ =>
        .ok { s with
          wallets :=
            creditWallet
              (updW s.wallets o.user pair.base_currency (-fq) (-fq))
              o.user pair.quote_currency (fq * ep),
          orders := applyFill s.orders oid fq }

/-! ### MatchingEngine -/

def oppositeSide : Side → Side
  | .buy => .sell
  | .sell => .buy

/-- The queryset filter of `match_market_order`: opposite side, status
`pending` or `partial_filled`, limit orders only, not owned by the
aggressor's user. -/
def eligibleMarket (aggr : Order) (o : Order) : Bool :=
  decide (o.side = oppositeSide aggr.side) &&
  (decide (o.status = OStatus.pending) || decide (o.status = OStatus.partial_filled)) &&
  decide (o.order_type = OrderType.limit) &&
  !decide (o.user = aggr.user)

/-- The queryset filter of `match_limit_order`: additionally the resting
price must satisfy `price <= ap` for a buy aggressor with limit price `ap`
(`price >= ap` for a sell); a resting row with a NULL price never satisfies
the SQL comparison. -/
def eligibleLimit (aggr : Order) (ap : Amount) (o : Order) : Bool :=
  eligibleMarket aggr o &&
  (match o.price with
   | some rp =>
     match aggr.side with
     | .buy => decide (rp ≤ ap)
     | .sell => decide (ap ≤ rp)
   | none => false)

def priceKey (o : Order) : Amount :=
  match o.price with
  | some p => p
  | none => 0

/-- `order_by('price', 'created_at')` of a buy aggressor's candidate query:
lowest price first, ties by earliest creation. -/
def buyPriority (a b : Order) : Prop :=
  priceKey a < priceKey b ∨ (priceKey a = priceKey b ∧ a.created_at ≤ b.created_at)

/-- `order_by('-price', 'created_at')` of a sell aggressor's candidate query:
highest price first, ties by earliest creation. -/
def sellPriority (a b : Order) : Prop :=
  priceKey b < priceKey a ∨ (priceKey a = priceKey b ∧ a.created_at ≤ b.created_at)

def candPriority : Side → Order → Order → Prop
  | .buy => buyPriority
  | .sell => sellPriority

instance : DecidableRel buyPriority := fun a b =>
  inferInstanceAs
    (Decidable (priceKey a < priceKey b ∨ (priceKey a = priceKey b ∧ a.created_at ≤ b.created_at)))

instance : DecidableRel sellPriority := fun a b =>
  inferInstanceAs
    (Decidable (priceKey b < priceKey a ∨ (priceKey a = priceKey b ∧ a.created_at ≤ b.created_at)))

instance candPriorityDecidable (sd : Side) : DecidableRel (candPriority sd) :=
  match sd with
  | .buy => inferInstanceAs (DecidableRel buyPriority)
  | .sell => inferInstanceAs (DecidableRel sellPriority)

def sortCands (sd : Side) (l : List Order) : List Order :=
  List.insertionSort (candPriority sd) l

/-- The evaluated candidate queryset of `match_market_order`. -/
def marketCandidates (s : State) (aggr : Order) : List Order :=
  sortCands aggr.side (s.orders.filter (eligibleMarket aggr))

/-- The evaluated candidate queryset of `match_limit_order` for an aggressor
with limit price `ap`. -/
def limitCandidates (s : State) (aggr : Order) (ap : Amount) : List Order :=
  sortCands aggr.side (s.orders.filter (eligibleLimit aggr ap))

/-- `match_quantity = min(remaining_quantity, counter_remaining)` of the
matching loop, with the counter row's quantities as fetched by the queryset. -/
def stepQty (remaining : Amount) (counter : Order) : Amount :=
  amin remaining (counter.quantity - counter.filled_quantity)

/-- One iteration of the matching loop: compute the match quantity from the
counter row as fetched by the queryset, fill both orders at the counter
order's price, and then execute `Trade.objects.create(..., timestamp=
timezone.now())` (matching_engine.py:72-79 and 152-159).  That call passes a
`timestamp` keyword the current `trading.models.Trade` does not declare (and
leaves its non-nullable `trading_pair` and unique `trade_id` columns unset),
so the model constructor raises `TypeError` — the iteration never returns,
and the exception escapes the `@transaction.atomic` of the engine method,
rolling both fills back. -/
def matchStep (pair : TradingPair) (s : State) (aggrId : OrderId) (remaining : Amount)
    (counter : Order) : Except Err (State × Amount) :=
  match counter.price with
  | none => .error .valueError
  | some ep =>
    match fillOrder pair s aggrId (stepQty remaining counter) ep with
    | .error e => .error e
    | .ok s1 =>
      match fillOrder pair s1 counter.id (stepQty remaining counter) ep with
      | .error e => .error e
      | .ok _ => .error .typeError

/-- The matching loop over the evaluated candidate list, stopping as soon as
the tracked remaining quantity is no longer positive. -/
def runMatches (pair : TradingPair) (aggrId : OrderId) :
    State → Amount → List Order → Except Err (State × Amount)
  | s, remaining, [] => .ok (s, remaining)
  | s, remaining, counter :: rest =>
    if remaining ≤ 0 then .ok (s, remaining)
    else
      match matchStep pair s aggrId remaining counter with
      | .error e => .error e
      | .ok (s2, rem2) => runMatches pair aggrId s2 rem2 rest

/-- MatchingEngine.match_limit_order. -/
def matchLimitOrder (pair : TradingPair) (s : State) (oid : OrderId) : Except Err State :=
  match findOrder s oid with
  | none => .error .doesNotExist
  | some o =>
    if o.order_type ≠ OrderType.limit then .error .valueError
    else if o.status ≠ OStatus.pending then .ok s
    else
      match o.price with
      | none => .error .valueError
      | some ap =>
        match runMatches pair oid s (o.quantity - o.filled_quantity) (limitCandidates s o ap) with
        | .error e => .error e
        | .ok (s1, _) => .ok s1

/-- The terminal handling of `match_market_order`: re-read the order after the
loop and, when it is still `pending` or `partial_filled`, set its status to
`partial_filled` when anything filled and `cancelled` otherwise.  Only the
status is written; no wallet is touched (no unfreeze of the unused
reservation). -/
def marketTerminal (s1 : State) (oid : OrderId) : Except Err State :=
  match findOrder s1 oid with
  | none => .error .doesNotExist
  | some o1 =>
    if o1.status = OStatus.pending ∨ o1.status = OStatus.partial_filled then
      .ok { s1 with
        orders := setStatus s1.orders oid
          (if 0 < o1.filled_quantity then .partial_filled else .cancelled) }
    else .ok s1

/-- MatchingEngine.match_market_order. -/
def matchMarketOrder (pair : TradingPair) (s : State) (oid : OrderId) : Except Err State :=
  match findOrder s oid with
  | none => .error .doesNotExist
  | some o =>
    if o.order_type ≠ OrderType.market then .error .valueError
    else if o.status ≠ OStatus.pending then .ok s
    else
      match runMatches pair oid s (o.quantity - o.filled_quantity) (marketCandidates s o) with
      | .error e => .error e
      | .ok (s1, _) => marketTerminal s1 oid

/-- trading.views.CancelOrderView.post: looks the order up by id and, when
found, sets its status to `cancelled` unconditionally (no status check, no
unfreeze); 404 (no state change) when absent. -/
def cancelOrderView (s : State) (oid : OrderId) : State :=
  match findOrder s oid with
  | none => s
  | some _ => { s with orders := setStatus s.orders oid .cancelled }

/-! ### Observables -/

/-- Sum of wallet (total) balances over all wallets holding currency `c`. -/
def sumBal (ws : List Wallet) (c : CurrencyId) : Amount :=
  (ws.map fun w => if w.currency = c then w.balance else 0).sum

def balOf (s : State) (u : UserId) (c : CurrencyId) : Amount :=
  match findWallet s.wallets u c with
  | some w => w.balance
  | none => 0

def frozenOf (s : State) (u : UserId) (c : CurrencyId) : Amount :=
  match findWallet s.wallets u c with
  | some w => w.frozen_balance
  | none => 0

/-- The (user, currency) keys of a wallet list. -/
def walletKeys (ws : List Wallet) : List (UserId × CurrencyId) :=
  ws.map fun w => (w.user, w.currency)

/-- Well-formedness mirrored from the `unique_together = ['user', 'currency']`
constraint of the Wallet table. -/
def goodWallets (ws : List Wallet) : Prop := (walletKeys ws).Nodup

instance goodWalletsDecidable (ws : List Wallet) : Decidable (goodWallets ws) :=
  inferInstanceAs (Decidable (walletKeys ws).Nodup)

/-! ### Helpers for closed-form evaluation of `Except` results -/

def exceptIsOk (e : Except Err State) : Bool :=
  match e with
  | .ok _ => true
  | .error _ => false

def emptyState : State := ⟨[], [], [], none⟩

def stateOf (e : Except Err State) : State :=
  match e with
  | .ok s => s
  | .error _ => emptyState

def statusOf (s : State) (oid : OrderId) : Option OStatus :=
  match findOrder s oid with
  | some o => some o.status
  | none => none

/-- Number of wallet rows with the given (user, currency) key. -/
def keyCount (ws : List Wallet) (u : UserId) (c : CurrencyId) : Nat :=
  (ws.filter fun w => decide (w.user = u) && decide (w.currency = c)).length

/-! ### Wallet-level lemmas -/

theorem updWFn_user (u : UserId) (c : CurrencyId) (db df : Amount) (w : Wallet) :
    (updWFn u c db df w).user = w.user := by
  unfold updWFn; split <;> rfl

theorem updWFn_currency (u : UserId) (c : CurrencyId) (db df : Amount) (w : Wallet) :
    (updWFn u c db df w).currency = w.currency := by
  unfold updWFn; split <;> rfl

theorem clampFn_user (u : UserId) (c : CurrencyId) (amt : Amount) (w : Wallet) :
    (clampFn u c amt w).user = w.user := by
  unfold clampFn; split <;> rfl

theorem clampFn_currency (u : UserId) (c : CurrencyId) (amt : Amount) (w : Wallet) :
    (clampFn u c amt w).currency = w.currency := by
  unfold clampFn; split <;> rfl

theorem clampFn_balance (u : UserId) (c : CurrencyId) (amt : Amount) (w : Wallet) :
    (clampFn u c amt w).balance = w.balance := by
  unfold clampFn; split <;> rfl

theorem findWallet_updW (ws : List Wallet) (u c u' c' : Nat) (db df : Amount) :
    findWallet (updW ws u c db df) u' c' =
      (findWallet ws u' c').map (updWFn u c db df) := by
  unfold findWallet updW
  rw [List.find?_map]
  have hp : ((fun w : Wallet => decide (w.user = u') && decide (w.currency = c')) ∘
      updWFn u c db df) =
      (fun w : Wallet => decide (w.user = u') && decide (w.currency = c')) := by
    funext w
    simp [Function.comp, updWFn_user, updWFn_currency]
  rw [hp]

theorem findWallet_clampFrozen (ws : List Wallet) (u c u' c' : Nat) (amt : Amount) :
    findWallet (clampFrozen ws u c amt) u' c' =
      (findWallet ws u' c').map (clampFn u c amt) := by
  unfold findWallet clampFrozen
  rw [List.find?_map]
  have hp : ((fun w : Wallet => decide (w.user = u') && decide (w.currency = c')) ∘
      clampFn u c amt) =
      (fun w : Wallet => decide (w.user = u') && decide (w.currency = c')) := by
    funext w
    simp [Function.comp, clampFn_user, clampFn_currency]
  rw [hp]

theorem findWallet_ensure_same (ws : List Wallet) (u : UserId) (c : CurrencyId) :
    findWallet (ensureWallet ws u c) u c =
      some ((findWallet ws u c).getD ⟨u, c, 0, 0⟩) := by
  unfold ensureWallet
  cases h : findWallet ws u c with
  | some w => simp [h]
  | none =>
    unfold findWallet at h ⊢
    simp [List.find?_append, h]

theorem findWallet_ensure_ne (ws : List Wallet) (u c u' c' : Nat)
    (h : ¬(u' = u ∧ c' = c)) :
    findWallet (ensureWallet ws u c) u' c' = findWallet ws u' c' := by
  unfold ensureWallet
  cases hf : findWallet ws u c with
  | some w => rfl
  | none =>
    unfold findWallet
    rw [List.find?_append]
    have hx : (List.find? (fun w => decide (w.user = u') && decide (w.currency = c'))
        [(⟨u, c, 0, 0⟩ : Wallet)]) = none := by
      have hne : ¬(u = u' ∧ c = c') := fun hc => h ⟨hc.1.symm, hc.2.symm⟩
      by_cases h1 : u = u'
      · have h2 : ¬c = c' := fun hc => hne ⟨h1, hc⟩
        simp [h1, h2]
      · simp [h1]
    rw [hx]
    cases ws.find? fun w => decide (w.user = u') && decide (w.currency = c') <;> rfl

theorem sumBal_nil (c : CurrencyId) : sumBal [] c = 0 := rfl

theorem sumBal_cons (w : Wallet) (ws : List Wallet) (c : CurrencyId) :
    sumBal (w :: ws) c = (if w.currency = c then w.balance else 0) + sumBal ws c := by
  simp [sumBal]

theorem keyCount_cons (w : Wallet) (ws : List Wallet) (u : UserId) (c : CurrencyId) :
    keyCount (w :: ws) u c =
      (if w.user = u ∧ w.currency = c then 1 else 0) + keyCount ws u c := by
  simp only [keyCount, List.filter_cons]
  by_cases h1 : w.user = u <;> by_cases h2 : w.currency = c <;>
    simp [h1, h2, Nat.add_comm]

theorem sumBal_updW (ws : List Wallet) (u : UserId) (c : CurrencyId) (db df : Amount)
    (c' : CurrencyId) :
    sumBal (updW ws u c db df) c' =
      sumBal ws c' + (if c = c' then (keyCount ws u c : Amount) * db else 0) := by
  induction ws with
  | nil => simp [sumBal, updW, keyCount]
  | cons w ws ih =>
    have hcons : updW (w :: ws) u c db df = updWFn u c db df w :: updW ws u c db df := rfl
    rw [hcons, sumBal_cons, ih, sumBal_cons, keyCount_cons]
    by_cases hm : w.user = u ∧ w.currency = c
    · have hfn : updWFn u c db df w =
          { w with balance := w.balance + db, frozen_balance := w.frozen_balance + df } := by
        unfold updWFn
        rw [if_pos (by simpa using hm)]
      rw [hfn, if_pos hm]
      by_cases hc : c = c'
      · rw [if_pos hc, if_pos hc]
        have hwc : w.currency = c' := hm.2.trans hc
        rw [if_pos hwc, if_pos hwc]
        push_cast
        ring_nf
      · rw [if_neg hc, if_neg hc]
        have hwc : ¬w.currency = c' := fun hx => hc (hm.2.symm.trans hx)
        rw [if_neg hwc, if_neg hwc]
        ring_nf
    · have hfn : updWFn u c db df w = w := by
        unfold updWFn
        rw [if_neg (by simpa using hm)]
      rw [hfn, if_neg hm]
      push_cast
      ring_nf

theorem sumBal_map_preserve (f : Wallet → Wallet)
    (hf : ∀ w, (f w).currency = w.currency ∧ (f w).balance = w.balance)
    (ws : List Wallet) (c : CurrencyId) :
    sumBal (ws.map f) c = sumBal ws c := by
  induction ws with
  | nil => rfl
  | cons w ws ih =>
    rw [List.map_cons, sumBal_cons, sumBal_cons, ih, (hf w).1, (hf w).2]

theorem sumBal_clampFrozen (ws : List Wallet) (u : UserId) (c : CurrencyId) (amt : Amount)
    (c' : CurrencyId) :
    sumBal (clampFrozen ws u c amt) c' = sumBal ws c' := by
  exact sumBal_map_preserve _ (fun w => ⟨clampFn_currency u c amt w, clampFn_balance u c amt w⟩) ws c'

theorem updWFn_balance_zero (u : UserId) (c : CurrencyId) (df : Amount) (w : Wallet) :
    (updWFn u c 0 df w).balance = w.balance := by
  unfold updWFn
  split
  · simp
  · rfl

theorem sumBal_updW_zero (ws : List Wallet) (u : UserId) (c : CurrencyId) (df : Amount)
    (c' : CurrencyId) :
    sumBal (updW ws u c 0 df) c' = sumBal ws c' := by
  exact sumBal_map_preserve _
    (fun w => ⟨updWFn_currency u c 0 df w, updWFn_balance_zero u c df w⟩) ws c'

theorem sumBal_append (ws₁ ws₂ : List Wallet) (c : CurrencyId) :
    sumBal (ws₁ ++ ws₂) c = sumBal ws₁ c + sumBal ws₂ c := by
  simp [sumBal]

theorem sumBal_ensure (ws : List Wallet) (u : UserId) (c : CurrencyId) (c' : CurrencyId) :
    sumBal (ensureWallet ws u c) c' = sumBal ws c' := by
  unfold ensureWallet
  cases findWallet ws u c with
  | some w => rfl
  | none =>
    rw [sumBal_append, sumBal_cons, sumBal_nil]
    simp

/-! ### keyCount and goodWallets lemmas -/

theorem walletKeys_cons (w : Wallet) (ws : List Wallet) :
    walletKeys (w :: ws) = (w.user, w.currency) :: walletKeys ws := rfl

theorem keyCount_zero_of_not_mem {ws : List Wallet} {u : UserId} {c : CurrencyId}
    (h : (u, c) ∉ walletKeys ws) : keyCount ws u c = 0 := by
  induction ws with
  | nil => rfl
  | cons w ws ih =>
    rw [walletKeys_cons, List.mem_cons] at h
    push_neg at h
    rw [keyCount_cons, ih h.2, if_neg]
    intro hm
    exact h.1 (by rw [hm.1, hm.2])

theorem goodWallets_cons {w : Wallet} {ws : List Wallet} (h : goodWallets (w :: ws)) :
    (w.user, w.currency) ∉ walletKeys ws ∧ goodWallets ws := by
  unfold goodWallets at h ⊢
  rw [walletKeys_cons, List.nodup_cons] at h
  exact h

theorem keyCount_eq_one {ws : List Wallet} {u : UserId} {c : CurrencyId} {w : Wallet}
    (hg : goodWallets ws) (hf : findWallet ws u c = some w) : keyCount ws u c = 1 := by
  induction ws with
  | nil => simp [findWallet] at hf
  | cons w0 ws ih =>
    obtain ⟨hnot, hgood⟩ := goodWallets_cons hg
    rw [keyCount_cons]
    unfold findWallet at hf
    by_cases hp : w0.user = u ∧ w0.currency = c
    · rw [if_pos hp]
      have : (u, c) ∉ walletKeys ws := by
        rw [← hp.1, ← hp.2]; exact hnot
      rw [keyCount_zero_of_not_mem this]
    · rw [if_neg hp]
      rw [List.find?_cons_of_neg _ (by simpa using hp)] at hf
      simp only [Nat.zero_add]
      exact ih hgood hf

theorem walletKeys_map_preserve (f : Wallet → Wallet)
    (hf : ∀ w, (f w).user = w.user ∧ (f w).currency = w.currency) (ws : List Wallet) :
    walletKeys (ws.map f) = walletKeys ws := by
  unfold walletKeys
  rw [List.map_map]
  apply List.map_congr_left
  intro w _
  simp [Function.comp, (hf w).1, (hf w).2]

theorem goodWallets_updW {ws : List Wallet} (u : UserId) (c : CurrencyId) (db df : Amount)
    (hg : goodWallets ws) : goodWallets (updW ws u c db df) := by
  unfold goodWallets updW
  rw [walletKeys_map_preserve _ (fun w => ⟨updWFn_user u c db df w, updWFn_currency u c db df w⟩)]
  exact hg

theorem goodWallets_clampFrozen {ws : List Wallet} (u : UserId) (c : CurrencyId) (amt : Amount)
    (hg : goodWallets ws) : goodWallets (clampFrozen ws u c amt) := by
  unfold goodWallets clampFrozen
  rw [walletKeys_map_preserve _ (fun w => ⟨clampFn_user u c amt w, clampFn_currency u c amt w⟩)]
  exact hg

theorem findWallet_none_not_mem {ws : List Wallet} {u : UserId} {c : CurrencyId}
    (h : findWallet ws u c = none) : (u, c) ∉ walletKeys ws := by
  unfold findWallet at h
  rw [List.find?_eq_none] at h
  intro hmem
  unfold walletKeys at hmem
  rw [List.mem_map] at hmem
  obtain ⟨w, hw, hkey⟩ := hmem
  have := h w hw
  apply this
  have h1 : w.user = u := congrArg Prod.fst hkey
  have h2 : w.currency = c := congrArg Prod.snd hkey
  simp [h1, h2]

theorem goodWallets_ensure {ws : List Wallet} (u : UserId) (c : CurrencyId)
    (hg : goodWallets ws) : goodWallets (ensureWallet ws u c) := by
  unfold ensureWallet
  cases h : findWallet ws u c with
  | some w => exact hg
  | none =>
    unfold goodWallets
    have hkeys : walletKeys (ws ++ [⟨u, c, 0, 0⟩]) = walletKeys ws ++ [(u, c)] := by
      unfold walletKeys
      rw [List.map_append]
      rfl
    rw [hkeys]
    rw [List.nodup_append]
    refine ⟨hg, List.nodup_singleton _, ?_⟩
    intro k hk hk2
    rw [List.mem_singleton] at hk2
    subst hk2
    exact findWallet_none_not_mem h hk

theorem keyCount_ensure_self {ws : List Wallet} (u : UserId) (c : CurrencyId)
    (hg : goodWallets ws) : keyCount (ensureWallet ws u c) u c = 1 := by
  obtain ⟨w, hw⟩ : ∃ w, findWallet (ensureWallet ws u c) u c = some w :=
    ⟨_, findWallet_ensure_same ws u c⟩
  exact keyCount_eq_one (goodWallets_ensure u c hg) hw

theorem sumBal_creditWallet {ws : List Wallet} (u : UserId) (c : CurrencyId) (amt : Amount)
    (c' : CurrencyId) (hg : goodWallets ws) :
    sumBal (creditWallet ws u c amt) c' = sumBal ws c' + (if c = c' then amt else 0) := by
  unfold creditWallet
  rw [sumBal_updW, sumBal_ensure, keyCount_ensure_self u c hg]
  simp

theorem goodWallets_creditWallet {ws : List Wallet} (u : UserId) (c : CurrencyId) (amt : Amount)
    (hg : goodWallets ws) : goodWallets (creditWallet ws u c amt) :=
  goodWallets_updW u c amt 0 (goodWallets_ensure u c hg)

/-! ### Order-level frame lemmas -/

theorem applyFillFn_id (oid : OrderId) (fq : Amount) (o : Order) :
    (applyFillFn oid fq o).id = o.id := by
  unfold applyFillFn; split <;> rfl

theorem applyFillFn_user (oid : OrderId) (fq : Amount) (o : Order) :
    (applyFillFn oid fq o).user = o.user := by
  unfold applyFillFn; split <;> rfl

theorem applyFillFn_side (oid : OrderId) (fq : Amount) (o : Order) :
    (applyFillFn oid fq o).side = o.side := by
  unfold applyFillFn; split <;> rfl

theorem applyFillFn_price (oid : OrderId) (fq : Amount) (o : Order) :
    (applyFillFn oid fq o).price = o.price := by
  unfold applyFillFn; split <;> rfl

theorem applyFillFn_quantity (oid : OrderId) (fq : Amount) (o : Order) :
    (applyFillFn oid fq o).quantity = o.quantity := by
  unfold applyFillFn; split <;> rfl

theorem applyFillFn_order_type (oid : OrderId) (fq : Amount) (o : Order) :
    (applyFillFn oid fq o).order_type = o.order_type := by
  unfold applyFillFn; split <;> rfl

theorem applyFillFn_status (oid : OrderId) (fq : Amount) (o : Order) :
    (applyFillFn oid fq o).status = o.status ∨ (applyFillFn oid fq o).status = .filled ∨
      (applyFillFn oid fq o).status = .partial_filled := by
  unfold applyFillFn
  split
  · split
    · right; left; rfl
    · right; right; rfl
  · left; rfl

theorem setStatusFn_id (oid : OrderId) (st : OStatus) (o : Order) :
    (setStatusFn oid st o).id = o.id := by
  unfold setStatusFn; split <;> rfl

theorem findOrder_mk (ws : List Wallet) (os : List Order) (ts : List Trade)
    (mp : Option Amount) (oid : OrderId) :
    findOrder ⟨ws, os, ts, mp⟩ oid = os.find? fun o => decide (o.id = oid) := rfl

theorem find?_map_id_preserve (f : Order → Order) (hf : ∀ o, (f o).id = o.id)
    (os : List Order) (oid : OrderId) :
    ((os.map f).find? fun o => decide (o.id = oid)) =
      (os.find? fun o => decide (o.id = oid)).map f := by
  rw [List.find?_map]
  have hp : ((fun o : Order => decide (o.id = oid)) ∘ f) =
      (fun o : Order => decide (o.id = oid)) := by
    funext o
    simp [Function.comp, hf]
  rw [hp]

theorem findOrder_applyFill (s : State) (ws : List Wallet) (ts : List Trade)
    (mp : Option Amount) (oid oid' : OrderId) (fq : Amount) :
    findOrder ⟨ws, applyFill s.orders oid fq, ts, mp⟩ oid' =
      (findOrder s oid').map (applyFillFn oid fq) := by
  rw [findOrder_mk]
  unfold applyFill
  rw [find?_map_id_preserve _ (applyFillFn_id oid fq)]
  rfl

/-- Inversion of a successful `fillOrder` call: the order looked up, the new
wallet list according to its side, and the unchanged components. -/
theorem fillOrder_ok_elim {pair : TradingPair} {s : State} {oid : OrderId} {fq ep : Amount}
    {s' : State} (h : fillOrder pair s oid fq ep = .ok s') :
    ∃ o, findOrder s oid = some o ∧
      s'.orders = applyFill s.orders oid fq ∧
      s'.trades = s.trades ∧ s'.marketPrice = s.marketPrice ∧
      ((o.side = .buy ∧
          (∃ w, findWallet s.wallets o.user pair.quote_currency = some w) ∧
          s'.wallets =
            creditWallet
              (updW s.wallets o.user pair.quote_currency (-(fq * ep)) (-(fq * ep)))
              o.user pair.base_currency fq) ∨
       (o.side = .sell ∧
          (∃ w, findWallet s.wallets o.user pair.base_currency = some w) ∧
          s'.wallets =
            creditWallet
              (updW s.wallets o.user pair.base_currency (-fq) (-fq))
              o.user pair.quote_currency (fq * ep))) := by
  unfold fillOrder at h
  split at h
  · exact absurd h (by simp)
  · rename_i o hfind
    refine ⟨o, hfind, ?_⟩
    split at h
    · rename_i hside
      split at h
      · exact absurd h (by simp)
      · rename_i w hw
        injection h with h
        subst h
        exact ⟨rfl, rfl, rfl, Or.inl ⟨hside, ⟨w, hw⟩, rfl⟩⟩
    · rename_i hside
      split at h
      · exact absurd h (by simp)
      · rename_i w hw
        injection h with h
        subst h
        exact ⟨rfl, rfl, rfl, Or.inr ⟨hside, ⟨w, hw⟩, rfl⟩⟩

theorem findOrder_map_preserve {s s' : State} (g : Order → Order)
    (hg : ∀ o, (g o).id = o.id) (hmap : s'.orders = s.orders.map g) (x : OrderId) :
    findOrder s' x = (findOrder s x).map g := by
  unfold findOrder
  rw [hmap]
  exact find?_map_id_preserve g hg s.orders x

/-! ### The matching loop can never complete an iteration -/

/-- Every matching iteration raises: a NULL counter price breaks the Decimal
conversion, a missing wallet breaks `fill_order`, and when both fills go
through the iteration dies at the broken `Trade.objects.create`. -/
theorem matchStep_error (pair : TradingPair) (s : State) (aggrId : OrderId) (rem : Amount)
    (counter : Order) : ∃ e, matchStep pair s aggrId rem counter = .error e := by
  rcases hp : counter.price with _ | ep
  · exact ⟨.valueError, by unfold matchStep; rw [hp]⟩
  · rcases hf1 : fillOrder pair s aggrId (stepQty rem counter) ep with e | s1
    · exact ⟨e, by unfold matchStep; rw [hp]; show (match fillOrder pair s aggrId
        (stepQty rem counter) ep with
          | .error e2 => (Except.error e2 : Except Err (State × Amount))
          | .ok s1x =>
            match fillOrder pair s1x counter.id (stepQty rem counter) ep with
            | .error e2 => .error e2
            | .ok _ => .error .typeError) = _; rw [hf1]⟩
    · rcases hf2 : fillOrder pair s1 counter.id (stepQty rem counter) ep with e | s2
      · exact ⟨e, by unfold matchStep; rw [hp]; show (match fillOrder pair s aggrId
          (stepQty rem counter) ep with
            | .error e2 => (Except.error e2 : Except Err (State × Amount))
            | .ok s1x =>
              match fillOrder pair s1x counter.id (stepQty rem counter) ep with
              | .error e2 => .error e2
              | .ok _ => .error .typeError) = _; rw [hf1]; show (match fillOrder pair s1
            counter.id (stepQty rem counter) ep with
            | .error e2 => (Except.error e2 : Except Err (State × Amount))
            | .ok _ => .error .typeError) = _; rw [hf2]⟩
      · exact ⟨.typeError, by unfold matchStep; rw [hp]; show (match fillOrder pair s aggrId
          (stepQty rem counter) ep with
            | .error e2 => (Except.error e2 : Except Err (State × Amount))
            | .ok s1x =>
              match fillOrder pair s1x counter.id (stepQty rem counter) ep with
              | .error e2 => .error e2
              | .ok _ => .error .typeError) = _; rw [hf1]; show (match fillOrder pair s1
            counter.id (stepQty rem counter) ep with
            | .error e2 => (Except.error e2 : Except Err (State × Amount))
            | .ok _ => .error .typeError) = _; rw [hf2]⟩

theorem matchStep_not_ok (pair : TradingPair) (s : State) (aggrId : OrderId) (rem : Amount)
    (counter : Order) (p : State × Amount) :
    matchStep pair s aggrId rem counter ≠ .ok p := by
  obtain ⟨e, he⟩ := matchStep_error pair s aggrId rem counter
  intro hok
  rw [he] at hok
  exact absurd hok (by simp)

/-- The matching loop returns normally only by breaking out before its first
fill (no candidates, or the tracked remaining quantity already non-positive),
in which case it changes nothing. -/
theorem runMatches_ok_elim (pair : TradingPair) (aggrId : OrderId) :
    ∀ (cs : List Order) (s : State) (rem : Amount) {s' : State} {rem' : Amount},
      runMatches pair aggrId s rem cs = .ok (s', rem') → s' = s ∧ rem' = rem := by
  intro cs
  induction cs with
  | nil =>
    intro s rem s' rem' h
    unfold runMatches at h
    injection h with h
    exact ⟨(congrArg Prod.fst h).symm, (congrArg Prod.snd h).symm⟩
  | cons counter rest ih =>
    intro s rem s' rem' h
    unfold runMatches at h
    split at h
    · injection h with h
      exact ⟨(congrArg Prod.fst h).symm, (congrArg Prod.snd h).symm⟩
    · split at h
      · exact absurd h (by simp)
      · rename_i s2 rem2 hstep
        exact absurd hstep (matchStep_not_ok pair s aggrId rem counter (s2, rem2))

/-- With a positive remaining quantity and at least one candidate, the loop
raises in its first iteration and the whole match rolls back. -/
theorem runMatches_cons_error (pair : TradingPair) (aggrId : OrderId) (s : State)
    (rem : Amount) (c : Order) (cs : List Order) (hrem : 0 < rem) :
    ∃ e, runMatches pair aggrId s rem (c :: cs) = .error e := by
  obtain ⟨e, he⟩ := matchStep_error pair s aggrId rem c
  refine ⟨e, ?_⟩
  unfold runMatches
  rw [if_neg (not_le.mpr hrem), he]

/-! ### Order-id well-formedness -/

def orderIds (os : List Order) : List OrderId := os.map fun o => o.id

/-- Well-formedness mirrored from the primary-key uniqueness of order rows. -/
def goodOrders (os : List Order) : Prop := (orderIds os).Nodup

instance goodOrdersDecidable (os : List Order) : Decidable (goodOrders os) :=
  inferInstanceAs (Decidable (orderIds os).Nodup)

theorem find?_id_of_mem {o : Order} :
    ∀ {os : List Order}, (os.map fun x => x.id).Nodup → o ∈ os →
      (os.find? fun x => decide (x.id = o.id)) = some o := by
  intro os
  induction os with
  | nil => intro _ h; exact absurd h (by simp)
  | cons o0 os ih =>
    intro hnd hmem
    rw [List.map_cons, List.nodup_cons] at hnd
    rcases List.mem_cons.mp hmem with rfl | hmem2
    · rw [List.find?_cons_of_pos _ (by simp)]
    · by_cases hid : o0.id = o.id
      · exact absurd (hid ▸ List.mem_map_of_mem (fun x => x.id) hmem2) hnd.1
      · rw [List.find?_cons_of_neg _ (by simpa using hid)]
        exact ih hnd.2 hmem2

theorem findOrder_of_mem {s : State} {o : Order} (hg : goodOrders s.orders)
    (hmem : o ∈ s.orders) : findOrder s o.id = some o :=
  find?_id_of_mem hg hmem

/-! ### Candidate eligibility extraction -/

theorem eligibleMarket_iff (aggr o : Order) :
    eligibleMarket aggr o = true ↔
      o.side = oppositeSide aggr.side ∧
        (o.status = OStatus.pending ∨ o.status = OStatus.partial_filled) ∧
        o.order_type = OrderType.limit ∧ ¬o.user = aggr.user := by
  unfold eligibleMarket
  simp [Bool.and_eq_true, Bool.or_eq_true, and_assoc]

theorem eligibleLimit_elim {aggr o : Order} {ap : Amount}
    (h : eligibleLimit aggr ap o = true) : eligibleMarket aggr o = true := by
  unfold eligibleLimit at h
  simp only [Bool.and_eq_true] at h
  exact h.1

theorem mem_sortCands {sd : Side} {l : List Order} {o : Order} :
    o ∈ sortCands sd l ↔ o ∈ l := by
  unfold sortCands
  exact List.Perm.mem_iff (List.perm_insertionSort _ _)

theorem mem_marketCandidates {s : State} {aggr o : Order} :
    o ∈ marketCandidates s aggr ↔ o ∈ s.orders ∧ eligibleMarket aggr o = true := by
  unfold marketCandidates
  rw [mem_sortCands, List.mem_filter]

theorem mem_limitCandidates {s : State} {aggr o : Order} {ap : Amount} :
    o ∈ limitCandidates s aggr ap ↔ o ∈ s.orders ∧ eligibleLimit aggr ap o = true := by
  unfold limitCandidates
  rw [mem_sortCands, List.mem_filter]

/-! ### Frame facts for the engine entry points -/

theorem marketTerminal_frame {s1 : State} {oid : OrderId} {s' : State}
    (h : marketTerminal s1 oid = .ok s') :
    s'.wallets = s1.wallets ∧ s'.trades = s1.trades := by
  unfold marketTerminal at h
  split at h
  · exact absurd h (by simp)
  · split at h
    · injection h with h
      rw [← h]
      exact ⟨rfl, rfl⟩
    · injection h with h
      rw [← h]
      exact ⟨rfl, rfl⟩

/-- A limit-order match that returns normally returns the state it was given:
no resting order is consumed, no wallet or trade row changes. -/
theorem matchLimitOrder_ok_elim {pair : TradingPair} {s : State} {oid : OrderId} {s' : State}
    (h : matchLimitOrder pair s oid = .ok s') : s' = s := by
  unfold matchLimitOrder at h
  split at h
  · exact absurd h (by simp)
  · split at h
    · exact absurd h (by simp)
    · split at h
      · injection h with h
        exact h.symm
      · split at h
        · exact absurd h (by simp)
        · split at h
          · exact absurd h (by simp)
          · rename_i s1 rem1 hrun
            injection h with h
            obtain ⟨hs, -⟩ := runMatches_ok_elim _ _ _ _ _ hrun
            rw [← h, hs]

/-- A market-order match that returns normally touches no wallet and no trade
row (at most the aggressor's status is rewritten by the terminal block). -/
theorem matchMarketOrder_ok_elim {pair : TradingPair} {s : State} {oid : OrderId} {s' : State}
    (h : matchMarketOrder pair s oid = .ok s') :
    s'.wallets = s.wallets ∧ s'.trades = s.trades := by
  unfold matchMarketOrder at h
  split at h
  · exact absurd h (by simp)
  · split at h
    · exact absurd h (by simp)
    · split at h
      · injection h with h
        rw [← h]
        exact ⟨rfl, rfl⟩
      · split at h
        · exact absurd h (by simp)
        · rename_i s1 rem1 hrun
          obtain ⟨hs, -⟩ := runMatches_ok_elim _ _ _ _ _ hrun
          obtain ⟨hw, ht⟩ := marketTerminal_frame h
          rw [hw, ht, hs]
          exact ⟨rfl, rfl⟩

/-- An admitted limit aggressor with positive remaining quantity and at least
one eligible candidate makes the whole match raise (and so roll back). -/
theorem matchLimitOrder_abort (pair : TradingPair) (s : State) (oid : OrderId) (o : Order)
    (ap : Amount) (c : Order) (cs : List Order)
    (ho : findOrder s oid = some o) (htype : o.order_type = OrderType.limit)
    (hst : o.status = OStatus.pending) (hap : o.price = some ap)
    (hrem : 0 < o.quantity - o.filled_quantity)
    (hc : limitCandidates s o ap = c :: cs) :
    ∃ e, matchLimitOrder pair s oid = .error e := by
  obtain ⟨e, he⟩ := runMatches_cons_error pair oid s (o.quantity - o.filled_quantity) c cs hrem
  refine ⟨e, ?_⟩
  unfold matchLimitOrder
  rw [ho]
  show (if o.order_type ≠ OrderType.limit then Except.error Err.valueError
    else if o.status ≠ OStatus.pending then Except.ok s
    else match o.price with
      | none => Except.error Err.valueError
      | some ap2 =>
        match runMatches pair oid s (o.quantity - o.filled_quantity)
            (limitCandidates s o ap2) with
        | .error e2 => .error e2
        | .ok (s1, _) => .ok s1) = _
  rw [if_neg (by simp [htype]), if_neg (by simp [hst]), hap]
  show (match runMatches pair oid s (o.quantity - o.filled_quantity)
      (limitCandidates s o ap) with
    | .error e2 => (Except.error e2 : Except Err State)
    | .ok (s1, _) => .ok s1) = _
  rw [hc, he]

/-- The market analogue of `matchLimitOrder_abort`. -/
theorem matchMarketOrder_abort (pair : TradingPair) (s : State) (oid : OrderId) (o : Order)
    (c : Order) (cs : List Order)
    (ho : findOrder s oid = some o) (htype : o.order_type = OrderType.market)
    (hst : o.status = OStatus.pending)
    (hrem : 0 < o.quantity - o.filled_quantity)
    (hc : marketCandidates s o = c :: cs) :
    ∃ e, matchMarketOrder pair s oid = .error e := by
  obtain ⟨e, he⟩ := runMatches_cons_error pair oid s (o.quantity - o.filled_quantity) c cs hrem
  refine ⟨e, ?_⟩
  unfold matchMarketOrder
  rw [ho]
  show (if o.order_type ≠ OrderType.market then Except.error Err.valueError
    else if o.status ≠ OStatus.pending then Except.ok s
    else match runMatches pair oid s (o.quantity - o.filled_quantity)
        (marketCandidates s o) with
      | .error e2 => .error e2
      | .ok (s1, _) => marketTerminal s1 oid) = _
  rw [if_neg (by simp [htype]), if_neg (by simp [hst]), hc, he]

/-! ### Per-wallet accessor lemmas -/

theorem findWallet_some_keys {ws : List Wallet} {u : UserId} {c : CurrencyId} {w : Wallet}
    (h : findWallet ws u c = some w) : w.user = u ∧ w.currency = c := by
  have := List.find?_some h
  simpa using this

theorem findWallet_updW_same {ws : List Wallet} {u : UserId} {c : CurrencyId} {w : Wallet}
    (db df : Amount) (h : findWallet ws u c = some w) :
    findWallet (updW ws u c db df) u c =
      some { w with balance := w.balance + db, frozen_balance := w.frozen_balance + df } := by
  rw [findWallet_updW, h]
  obtain ⟨h1, h2⟩ := findWallet_some_keys h
  show some (updWFn u c db df w) = _
  unfold updWFn
  rw [if_pos (by simp [h1, h2])]

theorem findWallet_updW_ne {ws : List Wallet} {u c u' c' : Nat} (db df : Amount)
    (h : ¬(u' = u ∧ c' = c)) :
    findWallet (updW ws u c db df) u' c' = findWallet ws u' c' := by
  rw [findWallet_updW]
  cases hf : findWallet ws u' c' with
  | none => rfl
  | some w =>
    obtain ⟨h1, h2⟩ := findWallet_some_keys hf
    show some (updWFn u c db df w) = some w
    unfold updWFn
    rw [if_neg]
    intro hcon
    simp only [Bool.and_eq_true, decide_eq_true_eq] at hcon
    exact h ⟨h1 ▸ hcon.1, h2 ▸ hcon.2⟩

theorem findWallet_clampFrozen_ne {ws : List Wallet} {u c u' c' : Nat} (amt : Amount)
    (h : ¬(u' = u ∧ c' = c)) :
    findWallet (clampFrozen ws u c amt) u' c' = findWallet ws u' c' := by
  rw [findWallet_clampFrozen]
  cases hf : findWallet ws u' c' with
  | none => rfl
  | some w =>
    obtain ⟨h1, h2⟩ := findWallet_some_keys hf
    show some (clampFn u c amt w) = some w
    unfold clampFn
    rw [if_neg]
    intro hcon
    simp only [Bool.and_eq_true, decide_eq_true_eq] at hcon
    exact h ⟨h1 ▸ hcon.1, h2 ▸ hcon.2⟩

theorem findWallet_clampFrozen_same {ws : List Wallet} {u : UserId} {c : CurrencyId} {w : Wallet}
    (amt : Amount) (h : findWallet ws u c = some w) :
    findWallet (clampFrozen ws u c amt) u c =
      some { w with frozen_balance := amax0 (w.frozen_balance - amt) } := by
  rw [findWallet_clampFrozen, h]
  obtain ⟨h1, h2⟩ := findWallet_some_keys h
  show some (clampFn u c amt w) = _
  unfold clampFn
  rw [if_pos (by simp [h1, h2])]

theorem findWallet_credit_same (ws : List Wallet) (u : UserId) (c : CurrencyId) (amt : Amount) :
    findWallet (creditWallet ws u c amt) u c =
      some (let w := (findWallet ws u c).getD ⟨u, c, 0, 0⟩
        { w with balance := w.balance + amt, frozen_balance := w.frozen_balance + 0 }) := by
  unfold creditWallet
  exact findWallet_updW_same amt 0 (findWallet_ensure_same ws u c)

theorem findWallet_credit_ne {ws : List Wallet} {u c u' c' : Nat} (amt : Amount)
    (h : ¬(u' = u ∧ c' = c)) :
    findWallet (creditWallet ws u c amt) u' c' = findWallet ws u' c' := by
  unfold creditWallet
  rw [findWallet_updW_ne amt 0 h, findWallet_ensure_ne ws u c u' c' h]

/-! ### Conservation of the public operations -/

theorem placeOrder_sumBal {pair : TradingPair} {s : State} {u : UserId} {otype : OrderType}
    {sd : Side} {qty : Amount} {price : Option Amount} {oid : OrderId} {now : Nat} {s' : State}
    (h : placeOrder pair s u otype sd qty price oid now = .ok s') (c : CurrencyId) :
    sumBal s'.wallets c = sumBal s.wallets c := by
  unfold placeOrder at h
  split at h
  · exact absurd h (by simp)
  · rename_i cur required hres
    split at h
    · exact absurd h (by simp)
    · rename_i w hw
      split at h
      · exact absurd h (by simp)
      · injection h with h
        rw [← h]
        show sumBal (updW (ensureWallet s.wallets u cur) u cur 0 required) c = _
        rw [sumBal_updW_zero, sumBal_ensure]

theorem cancelOrder_sumBal {pair : TradingPair} {s : State} {oid : OrderId} {s' : State}
    (h : cancelOrder pair s oid = .ok s') (c : CurrencyId) :
    sumBal s'.wallets c = sumBal s.wallets c := by
  unfold cancelOrder at h
  split at h
  · exact absurd h (by simp)
  · rename_i o ho
    split at h
    · split at h
      · exact absurd h (by simp)
      · rename_i cur amt hamt
        split at h
        · exact absurd h (by simp)
        · rename_i w hw
          injection h with h
          rw [← h]
          show sumBal (clampFrozen s.wallets o.user cur amt) c = _
          rw [sumBal_clampFrozen]
    · exact absurd h (by simp)

theorem matchLimitOrder_sumBal {pair : TradingPair} {s : State} {oid : OrderId} {s' : State}
    (h : matchLimitOrder pair s oid = .ok s') (c : CurrencyId) :
    sumBal s'.wallets c = sumBal s.wallets c := by
  rw [matchLimitOrder_ok_elim h]

theorem matchMarketOrder_sumBal {pair : TradingPair} {s : State} {oid : OrderId} {s' : State}
    (h : matchMarketOrder pair s oid = .ok s') (c : CurrencyId) :
    sumBal s'.wallets c = sumBal s.wallets c := by
  rw [(matchMarketOrder_ok_elim h).1]

/-! ### Concrete scenario material

The pair used by the literal scenarios: base currency 10 (think BTC), quote
currency 20 (think USDT), fee-rate columns at their model default 0.001. -/

def pair0 : TradingPair := ⟨10, 20, 1/1000, 1/1000⟩

/-! ### Claim C8 -/

/-- Claim C8 (conservation): for every order placement, fill (one matching
engine invocation, which settles both sides of each trade), and cancellation,
and for every currency, the sum of wallet balances over all wallets holding
that currency is unchanged. -/
theorem claim_C8_conservation (pair : TradingPair) (s : State) (c : CurrencyId)
    (hgw : goodWallets s.wallets) (hgo : goodOrders s.orders) :
    (∀ u otype sd qty price oid now s',
       placeOrder pair s u otype sd qty price oid now = .ok s' →
       sumBal s'.wallets c = sumBal s.wallets c) ∧
    (∀ oid s', cancelOrder pair s oid = .ok s' →
       sumBal s'.wallets c = sumBal s.wallets c) ∧
    (∀ oid s', matchLimitOrder pair s oid = .ok s' →
       sumBal s'.wallets c = sumBal s.wallets c) ∧
    (∀ oid s', matchMarketOrder pair s oid = .ok s' →
       sumBal s'.wallets c = sumBal s.wallets c) :=
  ⟨fun _ _ _ _ _ _ _ _ h => placeOrder_sumBal h c,
   fun _ _ h => cancelOrder_sumBal h c,
   fun _ _ h => matchLimitOrder_sumBal h c,
   fun _ _ h => matchMarketOrder_sumBal h c⟩

def c8s0 : State := ⟨[⟨1, 20, 100, 0⟩], [], [], none⟩

def c8res : Except Err State := placeOrder pair0 c8s0 1 .limit .buy 1 (some 10) 1 0

theorem claim_C8_witness :
    goodWallets c8s0.wallets ∧ goodOrders c8s0.orders ∧
    sumBal (stateOf c8res).wallets 20 = sumBal c8s0.wallets 20 :=
  ⟨by decide, by decide,
   (claim_C8_conservation pair0 c8s0 20 (by decide) (by decide)).1
     1 OrderType.limit Side.buy 1 (some 10) 1 0 (stateOf c8res) (by rfl)⟩

/-! ### Claim C10 -/

/-- Claim C10: invoking the matching engine on an order whose status is not
`pending` returns the state unchanged — no fills, no trades, no wallet
changes (each engine method returns the order as soon as
`order.status != 'pending'`). -/
theorem claim_C10_nonpending_noop (pair : TradingPair) (s : State) (oid : OrderId) (o : Order)
    (ho : findOrder s oid = some o) (hst : o.status ≠ OStatus.pending) :
    (o.order_type = OrderType.market → matchMarketOrder pair s oid = .ok s) ∧
    (o.order_type = OrderType.limit → matchLimitOrder pair s oid = .ok s) := by
  constructor
  · intro ht
    unfold matchMarketOrder
    rw [ho]
    show (if o.order_type ≠ OrderType.market then Except.error Err.valueError
      else if o.status ≠ OStatus.pending then Except.ok s else _) = Except.ok s
    rw [if_neg (by simp [ht]), if_pos hst]
  · intro ht
    unfold matchLimitOrder
    rw [ho]
    show (if o.order_type ≠ OrderType.limit then Except.error Err.valueError
      else if o.status ≠ OStatus.pending then Except.ok s else _) = Except.ok s
    rw [if_neg (by simp [ht]), if_pos hst]

def c10s : State :=
  ⟨[⟨1, 20, 100, 0⟩],
   [⟨1, 1, .market, .buy, none, 1, 1, .filled, .GTC, 0⟩,
    ⟨2, 1, .limit, .sell, some 5, 2, 1, .cancelled, .GTC, 0⟩],
   [], none⟩

theorem claim_C10_witness :
    matchMarketOrder pair0 c10s 1 = .ok c10s ∧ matchLimitOrder pair0 c10s 2 = .ok c10s :=
  ⟨(claim_C10_nonpending_noop pair0 c10s 1 ⟨1, 1, .market, .buy, none, 1, 1, .filled, .GTC, 0⟩
      (by decide) (by decide)).1 rfl,
   (claim_C10_nonpending_noop pair0 c10s 2 ⟨2, 1, .limit, .sell, some 5, 2, 1, .cancelled, .GTC, 0⟩
      (by decide) (by decide)).2 rfl⟩

/-! ### Claim C7 -/

def c7s : State :=
  ⟨[⟨1, 20, 10, 0⟩], [⟨1, 1, .limit, .buy, some 5, 1, 1, .filled, .GTC, 0⟩], [], none⟩

/-- Claim C7 counterexample: cancelling an order that is already `filled` is
not a no-op returning the current state — `OrderService.cancel_order` raises
a ValidationError — and `CancelOrderView` does move an order out of the
terminal status `filled` by setting it to `cancelled` unconditionally. -/
theorem claim_C7_counterexample :
    cancelOrder pair0 c7s 1 = .error .validation ∧
    statusOf c7s 1 = some .filled ∧
    statusOf (cancelOrderView c7s 1) 1 = some .cancelled := by
  refine ⟨by rfl, by decide, by decide⟩

/-- Claim C7 amended: cancelling an order in a terminal status (`filled`,
`cancelled`, `rejected`) through `OrderService.cancel_order` raises a
ValidationError (HTTP 400) rather than returning the current state, and
`CancelOrderView` sets the status of any existing order — terminal or not —
to `cancelled`, so terminal statuses are not permanent through that view. -/
theorem claim_C7_terminal_cancel (pair : TradingPair) (s : State) (oid : OrderId) (o : Order)
    (ho : findOrder s oid = some o)
    (hterm : o.status = OStatus.filled ∨ o.status = OStatus.cancelled ∨
      o.status = OStatus.rejected) :
    cancelOrder pair s oid = .error .validation ∧
    (∀ o' ∈ (cancelOrderView s oid).orders, o'.id = oid → o'.status = .cancelled) := by
  constructor
  · unfold cancelOrder
    rw [ho]
    show (if o.status = OStatus.pending ∨ o.status = OStatus.partial_filled then _
      else Except.error Err.validation) = _
    rw [if_neg]
    rcases hterm with h | h | h <;> rw [h] <;> decide
  · intro o' hmem hid
    unfold cancelOrderView at hmem
    rw [ho] at hmem
    have hmem2 : o' ∈ setStatus s.orders oid .cancelled := hmem
    unfold setStatus at hmem2
    rw [List.mem_map] at hmem2
    obtain ⟨o0, _, rfl⟩ := hmem2
    unfold setStatusFn at hid ⊢
    by_cases h0 : o0.id = oid
    · rw [if_pos (by simpa using h0)]
    · rw [if_neg (by simpa using h0)] at hid
      exact absurd hid h0

theorem claim_C7_witness :
    cancelOrder pair0 c7s 1 = .error .validation ∧
    (∀ o' ∈ (cancelOrderView c7s 1).orders, o'.id = 1 → o'.status = .cancelled) :=
  claim_C7_terminal_cancel pair0 c7s 1 ⟨1, 1, .limit, .buy, some 5, 1, 1, .filled, .GTC, 0⟩
    (by decide) (by decide)

/-! ### Claim C1 -/

def c1s : State :=
  ⟨[⟨1, 20, 1000, 0⟩, ⟨2, 10, 1, 0⟩],
   [⟨1, 2, .limit, .sell, some 100, 1, 0, .pending, .GTC, 0⟩], [], none⟩

/-- Claim C1 counterexample: the book has a resting ask at 100, so the claim
predicts that Alice's market buy of quantity 1 is admitted with
`1 * 100 * 1.05 = 105` frozen (or, absent asks, a NoLiquidity rejection).
Instead the submission raises `FieldError` inside the atomic block — the
estimated-price queryset orders `MarketData` by a nonexistent `last_updated`
column — so the committed state is `c1s` itself: no order is created and
nothing is frozen. -/
theorem claim_C1_counterexample :
    (⟨1, 2, .limit, .sell, some 100, 1, 0, .pending, .GTC, 0⟩ : Order) ∈ c1s.orders ∧
    placeOrder pair0 c1s 1 .market .buy 1 none 2 1 = .error .fieldError ∧
    frozenOf c1s 1 20 = 0 ∧ c1s.orders.length = 1 :=
  ⟨by decide, by rfl, by decide, by decide⟩

/-- Claim C1 amended: every market buy submission raises `FieldError` — the
estimated-price lookup of `place_order` orders `MarketData` by a
`last_updated` column the model does not declare — so no market buy order is
ever admitted and no funds are ever frozen for one.  The order book is never
consulted, there is no best-ask times 1.05 reservation, and there is no
NoLiquidity rejection. -/
theorem claim_C1_market_buy_crash (pair : TradingPair) (s : State) (u : UserId)
    (qty : Amount) (price : Option Amount) (oid : OrderId) (now : Nat) :
    estimatedMarketPrice s = .error .fieldError ∧
    reservation s pair .market .buy qty price = .error .fieldError ∧
    placeOrder pair s u .market .buy qty price oid now = .error .fieldError :=
  ⟨rfl, rfl, rfl⟩

/-! ### Claim C5

The literal scenario of the spec: Alice (user 1) holds 100 000 quote, Bob
(user 2) holds 1 base; Bob rests `SELL 1 @ 50000` and Alice submits
`BUY 1 @ 50000`, both limit orders, on `pair0` whose fee-rate columns are at
their model default 0.001.  Both placements commit (freezing 1 base for Bob
and 50 000 quote for Alice); the subsequent match dies at the broken
`Trade.objects.create` and rolls back, so `c5s2` — the post-placement state —
is the state the scenario leaves committed. -/

def c5s0 : State := ⟨[⟨1, 20, 100000, 0⟩, ⟨2, 10, 1, 0⟩], [], [], none⟩

def c5s1 : State := stateOf (placeOrder pair0 c5s0 2 .limit .sell 1 (some 50000) 1 1)

def c5s2 : State := stateOf (placeOrder pair0 c5s1 1 .limit .buy 1 (some 50000) 2 2)

/-- Claim C5 counterexample: in the literal scenario (fee rates 0.001, buy of
1 at 50 000 starting from 100 000 quote) the buyer never reaches 49 950 quote:
the match aborts with `TypeError` at the broken trade creation and rolls
back, leaving the committed state at Alice holding 100 000 quote (50 000 of
it frozen by her reservation) and 0 base. -/
theorem claim_C5_counterexample :
    pair0.maker_fee = 1/1000 ∧ pair0.taker_fee = 1/1000 ∧
    matchLimitOrder pair0 c5s2 2 = .error .typeError ∧
    balOf c5s2 1 20 = 100000 ∧ ¬balOf c5s2 1 20 = 49950 ∧ balOf c5s2 1 10 = 0 :=
  ⟨by decide, by decide, by rfl, by decide, by decide, by decide⟩

/-- Claim C5 amended: no fee is ever computed or charged — the trading
pair's fee-rate columns are never read, so every trading function is
literally independent of them — and even the in-transaction settlement of
`fill_order` moves exactly the traded amounts (a buy of 1 at 50 000 leaves
the buyer at 50 000 quote, not 49 950, before the enclosing match is rolled
back).  In the literal scenario the match itself aborts at the broken trade
creation, so the committed state keeps Alice at 100 000 quote (50 000
frozen), 0 base, her order still pending, and no trade row exists. -/
theorem claim_C5_no_fee_charged :
    (∀ mf tf : Amount,
       matchLimitOrder ⟨10, 20, mf, tf⟩ c5s2 2 = matchLimitOrder pair0 c5s2 2 ∧
       fillOrder ⟨10, 20, mf, tf⟩ c5s2 2 1 50000 = fillOrder pair0 c5s2 2 1 50000) ∧
    balOf (stateOf (fillOrder pair0 c5s2 2 1 50000)) 1 20 = 50000 ∧
    frozenOf (stateOf (fillOrder pair0 c5s2 2 1 50000)) 1 20 = 0 ∧
    matchLimitOrder pair0 c5s2 2 = .error .typeError ∧
    balOf c5s2 1 20 = 100000 ∧ frozenOf c5s2 1 20 = 50000 ∧ balOf c5s2 1 10 = 0 ∧
    statusOf c5s2 2 = some .pending ∧ c5s2.trades = [] :=
  ⟨fun _ _ => ⟨rfl, rfl⟩, by decide, by decide, by rfl, by decide, by decide, by decide,
   by decide, by decide⟩

/-! ### Claim C6

Scenario A: Bob (user 2) holds 1 base and submits a market sell of quantity 1
(market sells are admissible — no estimated-price lookup — and freeze the
base quantity) against an empty book: the terminal block sets the order to
`cancelled` but unfreezes nothing.  Scenario B: the same market sell against
a resting bid dies at the broken trade creation and stays `pending`. -/

def c6s0 : State := ⟨[⟨2, 10, 1, 0⟩], [], [], none⟩

def c6s1 : State := stateOf (placeOrder pair0 c6s0 2 .market .sell 1 none 1 1)

def c6aggr : Order := ⟨1, 2, .market, .sell, none, 1, 0, .pending, .GTC, 1⟩

def c6t0 : State := ⟨[⟨1, 20, 100000, 0⟩, ⟨2, 10, 1, 0⟩], [], [], none⟩

def c6t1 : State := stateOf (placeOrder pair0 c6t0 1 .limit .buy 1 (some 50000) 1 1)

def c6t2 : State := stateOf (placeOrder pair0 c6t1 2 .market .sell 1 none 2 2)

/-- Claim C6 counterexample: Bob's market sell of 1 against an empty book
ends `cancelled` with its full reservation of 1 base STILL frozen — the
claimed unfreeze of the unused reservation never happens.  And when the same
market sell finds a resting bid, matching never reaches the terminal rule at
all: the first iteration raises `TypeError` and the order stays `pending`,
so the claimed `partial_filled` outcome is unreachable. -/
theorem claim_C6_counterexample :
    statusOf (stateOf (matchMarketOrder pair0 c6s1 1)) 1 = some .cancelled ∧
    frozenOf (stateOf (matchMarketOrder pair0 c6s1 1)) 2 10 = 1 ∧
    ¬frozenOf (stateOf (matchMarketOrder pair0 c6s1 1)) 2 10 = 0 ∧
    matchMarketOrder pair0 c6t2 2 = .error .typeError ∧
    statusOf c6t2 2 = some .pending :=
  ⟨by decide, by decide, by decide, by rfl, by decide⟩

/-- Claim C6 amended: the terminal block of `match_market_order` only
rewrites the status — `partial_filled` when `filled_quantity` is positive,
`cancelled` otherwise — and touches no wallet, so the unused reservation
stays frozen.  Moreover it is reachable only when the loop raised nothing,
i.e. when the candidate list was empty (or the remaining quantity was
already zero): a pending market order with positive remaining quantity and
any eligible candidate raises at the first trade creation and the whole
match rolls back. -/
theorem claim_C6_market_terminal (pair : TradingPair) (s : State) (oid : OrderId) (o : Order)
    (ho : findOrder s oid = some o) (htype : o.order_type = OrderType.market)
    (hst : o.status = OStatus.pending) :
    (marketCandidates s o = [] →
       matchMarketOrder pair s oid = .ok { s with
         orders := setStatus s.orders oid
           (if 0 < o.filled_quantity then .partial_filled else .cancelled) } ∧
       (∀ u c, frozenOf { s with
         orders := setStatus s.orders oid
           (if 0 < o.filled_quantity then .partial_filled else .cancelled) } u c
         = frozenOf s u c)) ∧
    (0 < o.quantity - o.filled_quantity →
       ∀ c cs, marketCandidates s o = c :: cs →
       ∃ e, matchMarketOrder pair s oid = .error e) := by
  constructor
  · intro hcand
    constructor
    · unfold matchMarketOrder
      rw [ho]
      show (if o.order_type ≠ OrderType.market then Except.error Err.valueError
        else if o.status ≠ OStatus.pending then Except.ok s
        else match runMatches pair oid s (o.quantity - o.filled_quantity)
            (marketCandidates s o) with
          | .error e => .error e
          | .ok (s1, _) => marketTerminal s1 oid) = _
      rw [if_neg (by simp [htype]), if_neg (by simp [hst]), hcand]
      show marketTerminal s oid = _
      unfold marketTerminal
      rw [ho]
      show (if o.status = OStatus.pending ∨ o.status = OStatus.partial_filled then _ else _) = _
      rw [if_pos (Or.inl hst)]
    · intro u c
      rfl
  · intro hrem c cs hcand
    exact matchMarketOrder_abort pair s oid o c cs ho htype hst hrem hcand

theorem claim_C6_witness :
    matchMarketOrder pair0 c6s1 1 = .ok { c6s1 with
      orders := setStatus c6s1.orders 1
        (if 0 < c6aggr.filled_quantity then .partial_filled else .cancelled) } ∧
    (∀ u c, frozenOf { c6s1 with
      orders := setStatus c6s1.orders 1
        (if 0 < c6aggr.filled_quantity then .partial_filled else .cancelled) } u c
      = frozenOf c6s1 u c) :=
  (claim_C6_market_terminal pair0 c6s1 1 c6aggr (by rfl) rfl rfl).1 (by decide)

/-! ### Claim C9 -/

/-- The freeze-bound invariant the Wallet model declares
(`MinValueValidator(0)` on `frozen_balance`, and `available_balance =
balance - frozen_balance` must cover checks): every wallet row satisfies
`0 ≤ frozen_balance ≤ balance`. -/
def wfFrozen (s : State) : Prop :=
  ∀ w ∈ s.wallets, 0 ≤ w.frozen_balance ∧ w.frozen_balance ≤ w.balance

instance wfFrozenDecidable (s : State) : Decidable (wfFrozen s) :=
  inferInstanceAs
    (Decidable (∀ w ∈ s.wallets, 0 ≤ w.frozen_balance ∧ w.frozen_balance ≤ w.balance))

theorem wfFrozen_wallets_eq {s s' : State} (hws : s'.wallets = s.wallets)
    (hwf : wfFrozen s) : wfFrozen s' := by
  intro w hw
  rw [hws] at hw
  exact hwf w hw

theorem amax0_nonneg (x : Amount) : 0 ≤ amax0 x := by
  unfold amax0
  split
  · exact le_refl 0
  · rename_i h
    exact le_of_lt (not_le.mp h)

theorem amax0_le {x bound : Amount} (hx : x ≤ bound) (hb : 0 ≤ bound) :
    amax0 x ≤ bound := by
  unfold amax0
  split
  · exact hb
  · exact hx

theorem mem_ensureWallet {ws : List Wallet} {u : UserId} {c : CurrencyId} {w : Wallet}
    (h : w ∈ ensureWallet ws u c) : w ∈ ws ∨ w = ⟨u, c, 0, 0⟩ := by
  unfold ensureWallet at h
  split at h
  · exact Or.inl h
  · rcases List.mem_append.mp h with h1 | h1
    · exact Or.inl h1
    · exact Or.inr (List.mem_singleton.mp h1)

/-- With unique (user, currency) keys, looking a member wallet's key up finds
exactly that wallet. -/
theorem findWallet_of_mem :
    ∀ {ws : List Wallet}, goodWallets ws → ∀ {w : Wallet}, w ∈ ws →
      findWallet ws w.user w.currency = some w := by
  intro ws
  induction ws with
  | nil =>
    intro _ w hw
    cases hw
  | cons w0 ws ih =>
    intro hg w hw
    obtain ⟨hnot, hgood⟩ := goodWallets_cons hg
    rcases List.mem_cons.mp hw with rfl | hmem
    · unfold findWallet
      rw [List.find?_cons_of_pos _ (by simp)]
    · have hkeymem : (w.user, w.currency) ∈ walletKeys ws := by
        unfold walletKeys
        exact List.mem_map_of_mem _ hmem
      have hne : ¬(w0.user = w.user ∧ w0.currency = w.currency) := by
        intro hx
        apply hnot
        rw [hx.1, hx.2]
        exact hkeymem
      unfold findWallet
      rw [List.find?_cons_of_neg _ (by simpa using hne)]
      exact ih hgood hmem

/-- The amount `place_order` freezes is nonnegative whenever the submitted
quantity and price are (mirroring the MinValueValidator(0.00000001)
declarations on the order columns); the market-buy branch raises before
producing any amount. -/
theorem reservation_nonneg {s : State} {pair : TradingPair} {otype : OrderType} {sd : Side}
    {qty : Amount} {price : Option Amount} {cur : CurrencyId} {required : Amount}
    (h : reservation s pair otype sd qty price = .ok (cur, required))
    (hq : 0 ≤ qty) (hp : ∀ p, price = some p → 0 ≤ p) : 0 ≤ required := by
  cases sd with
  | sell =>
    injection (show (Except.ok (pair.base_currency, qty) : Except Err (CurrencyId × Amount))
      = .ok (cur, required) from h) with h2
    have h3 := congrArg Prod.snd h2
    simp only at h3
    rw [← h3]
    exact hq
  | buy =>
    cases otype with
    | market =>
      exact absurd (show (Except.error Err.fieldError : Except Err (CurrencyId × Amount))
        = .ok (cur, required) from h) (by simp)
    | limit =>
      cases price with
      | none =>
        exact absurd (show (Except.error Err.valueError : Except Err (CurrencyId × Amount))
          = .ok (cur, required) from h) (by simp)
      | some p =>
        injection (show (Except.ok (pair.quote_currency, qty * p) :
            Except Err (CurrencyId × Amount)) = .ok (cur, required) from h) with h2
        have h3 := congrArg Prod.snd h2
        simp only at h3
        rw [← h3]
        exact mul_nonneg hq (hp p rfl)
    | stop =>
      cases price with
      | none =>
        exact absurd (show (Except.error Err.valueError : Except Err (CurrencyId × Amount))
          = .ok (cur, required) from h) (by simp)
      | some p =>
        injection (show (Except.ok (pair.quote_currency, qty * p) :
            Except Err (CurrencyId × Amount)) = .ok (cur, required) from h) with h2
        have h3 := congrArg Prod.snd h2
        simp only at h3
        rw [← h3]
        exact mul_nonneg hq (hp p rfl)
    | stop_limit =>
      cases price with
      | none =>
        exact absurd (show (Except.error Err.valueError : Except Err (CurrencyId × Amount))
          = .ok (cur, required) from h) (by simp)
      | some p =>
        injection (show (Except.ok (pair.quote_currency, qty * p) :
            Except Err (CurrencyId × Amount)) = .ok (cur, required) from h) with h2
        have h3 := congrArg Prod.snd h2
        simp only at h3
        rw [← h3]
        exact mul_nonneg hq (hp p rfl)

/-- The remainder `cancel_order` unfreezes is nonnegative for a row with
`filled_quantity ≤ quantity` and a nonnegative price; the market-buy branch
raises before producing any amount. -/
theorem cancelAmt_nonneg {s : State} {pair : TradingPair} {o : Order} {cur : CurrencyId}
    {amt : Amount} (h : cancelFrozenAmount s pair o = .ok (cur, amt))
    (hfq : o.filled_quantity ≤ o.quantity) (hp : ∀ p, o.price = some p → 0 ≤ p) :
    0 ≤ amt := by
  obtain ⟨i0, u0, t0, sd0, pr0, q0, f0, st0, tf0, ca0⟩ := o
  cases sd0 with
  | sell =>
    injection (show (Except.ok (pair.base_currency, q0 - f0) :
        Except Err (CurrencyId × Amount)) = .ok (cur, amt) from h) with h2
    have h3 := congrArg Prod.snd h2
    simp only at h3
    rw [← h3]
    exact sub_nonneg.mpr hfq
  | buy =>
    cases t0 with
    | market =>
      exact absurd (show (Except.error Err.fieldError : Except Err (CurrencyId × Amount))
        = .ok (cur, amt) from h) (by simp)
    | limit =>
      cases pr0 with
      | none =>
        exact absurd (show (Except.error Err.valueError : Except Err (CurrencyId × Amount))
          = .ok (cur, amt) from h) (by simp)
      | some p =>
        injection (show (Except.ok (pair.quote_currency, (q0 - f0) * p) :
            Except Err (CurrencyId × Amount)) = .ok (cur, amt) from h) with h2
        have h3 := congrArg Prod.snd h2
        simp only at h3
        rw [← h3]
        exact mul_nonneg (sub_nonneg.mpr hfq) (hp p rfl)
    | stop =>
      cases pr0 with
      | none =>
        exact absurd (show (Except.error Err.valueError : Except Err (CurrencyId × Amount))
          = .ok (cur, amt) from h) (by simp)
      | some p =>
        injection (show (Except.ok (pair.quote_currency, (q0 - f0) * p) :
            Except Err (CurrencyId × Amount)) = .ok (cur, amt) from h) with h2
        have h3 := congrArg Prod.snd h2
        simp only at h3
        rw [← h3]
        exact mul_nonneg (sub_nonneg.mpr hfq) (hp p rfl)
    | stop_limit =>
      cases pr0 with
      | none =>
        exact absurd (show (Except.error Err.valueError : Except Err (CurrencyId × Amount))
          = .ok (cur, amt) from h) (by simp)
      | some p =>
        injection (show (Except.ok (pair.quote_currency, (q0 - f0) * p) :
            Except Err (CurrencyId × Amount)) = .ok (cur, amt) from h) with h2
        have h3 := congrArg Prod.snd h2
        simp only at h3
        rw [← h3]
        exact mul_nonneg (sub_nonneg.mpr hfq) (hp p rfl)

/-- Placement preserves the freeze bound: it freezes a nonnegative amount
only after checking it against the available balance. -/
theorem placeOrder_wfFrozen {pair : TradingPair} {s : State} {u : UserId} {otype : OrderType}
    {sd : Side} {qty : Amount} {price : Option Amount} {oid : OrderId} {now : Nat} {s' : State}
    (hwf : wfFrozen s) (hg : goodWallets s.wallets) (hq : 0 ≤ qty)
    (hp : ∀ p, price = some p → 0 ≤ p)
    (h : placeOrder pair s u otype sd qty price oid now = .ok s') : wfFrozen s' := by
  have hwfL : ∀ w ∈ s.wallets, 0 ≤ w.frozen_balance ∧ w.frozen_balance ≤ w.balance := hwf
  unfold placeOrder at h
  split at h
  · exact absurd h (by simp)
  · rename_i cur required hres
    split at h
    · exact absurd h (by simp)
    · rename_i w hw
      split at h
      · exact absurd h (by simp)
      · rename_i hnl
        injection h with h
        have hreq : 0 ≤ required := reservation_nonneg hres hq hp
        have hbal : required ≤ w.balance - w.frozen_balance := not_lt.mp hnl
        unfold wfFrozen
        intro w' hw'
        rw [← h] at hw'
        have hw'2 : w' ∈ updW (ensureWallet s.wallets u cur) u cur 0 required := hw'
        unfold updW at hw'2
        rw [List.mem_map] at hw'2
        obtain ⟨w0, hw0mem, hw0eq⟩ := hw'2
        have hwfw0 : 0 ≤ w0.frozen_balance ∧ w0.frozen_balance ≤ w0.balance := by
          rcases mem_ensureWallet hw0mem with hm | hm
          · exact hwfL w0 hm
          · rw [hm]
            exact ⟨le_refl 0, le_refl 0⟩
        unfold updWFn at hw0eq
        by_cases hkey : w0.user = u ∧ w0.currency = cur
        · rw [if_pos (by simp [hkey.1, hkey.2])] at hw0eq
          have hfw0 : findWallet (ensureWallet s.wallets u cur) w0.user w0.currency
              = some w0 := findWallet_of_mem (goodWallets_ensure u cur hg) hw0mem
          rw [hkey.1, hkey.2, hw] at hfw0
          injection hfw0 with hfw0
          rw [← hw0eq]
          constructor
          · show 0 ≤ w0.frozen_balance + required
            exact add_nonneg hwfw0.1 hreq
          · show w0.frozen_balance + required ≤ w0.balance + 0
            rw [hfw0] at hbal
            linarith
        · rw [if_neg (by simpa using hkey)] at hw0eq
          rw [← hw0eq]
          exact hwfw0

/-- Cancellation preserves the freeze bound: the unfreeze is clamped at zero
and only ever lowers the frozen balance. -/
theorem cancelOrder_wfFrozen {pair : TradingPair} {s : State} {oid : OrderId} {o : Order}
    {s' : State} (hwf : wfFrozen s) (ho : findOrder s oid = some o)
    (hfq : o.filled_quantity ≤ o.quantity) (hp : ∀ p, o.price = some p → 0 ≤ p)
    (h : cancelOrder pair s oid = .ok s') : wfFrozen s' := by
  have hwfL : ∀ w ∈ s.wallets, 0 ≤ w.frozen_balance ∧ w.frozen_balance ≤ w.balance := hwf
  unfold cancelOrder at h
  split at h
  · exact absurd h (by simp)
  · rename_i o0 ho0
    rw [ho] at ho0
    injection ho0 with ho0
    subst ho0
    split at h
    · split at h
      · exact absurd h (by simp)
      · rename_i cur amt hca
        split at h
        · exact absurd h (by simp)
        · injection h with h
          have hamt : 0 ≤ amt := cancelAmt_nonneg hca hfq hp
          unfold wfFrozen
          intro w' hw'
          rw [← h] at hw'
          have hw'2 : w' ∈ clampFrozen s.wallets o.user cur amt := hw'
          unfold clampFrozen at hw'2
          rw [List.mem_map] at hw'2
          obtain ⟨w0, hw0mem, hw0eq⟩ := hw'2
          have hwf0 := hwfL w0 hw0mem
          unfold clampFn at hw0eq
          by_cases hkey : w0.user = o.user ∧ w0.currency = cur
          · rw [if_pos (by simp [hkey.1, hkey.2])] at hw0eq
            rw [← hw0eq]
            constructor
            · show 0 ≤ amax0 (w0.frozen_balance - amt)
              exact amax0_nonneg _
            · show amax0 (w0.frozen_balance - amt) ≤ w0.balance
              exact amax0_le (by linarith [hwf0.2]) (le_trans hwf0.1 hwf0.2)
          · rw [if_neg (by simpa using hkey)] at hw0eq
            rw [← hw0eq]
            exact hwf0
    · exact absurd h (by simp)

theorem cancelOrderView_wallets (s : State) (oid : OrderId) :
    (cancelOrderView s oid).wallets = s.wallets := by
  unfold cancelOrderView
  split <;> rfl

/-- Claim C9: after every public trading operation that completes without
raising, every wallet still satisfies `0 ≤ frozen_balance ≤ balance`.
Placement freezes a nonnegative amount only after the available-balance
check (the nonnegativity hypotheses mirror the model validators on the
submitted quantity and price); cancellation clamps the unfreeze at zero and
only lowers the frozen balance; the cancel view rewrites statuses only; and
each matching entry point either returns with every wallet untouched
(matching something always raises at the broken trade creation, rolling the
transaction back) or raises itself.  An operation that raises commits
nothing, so the bound holds in every committed state. -/
theorem claim_C9_freeze_bound (pair : TradingPair) (s : State)
    (hwf : wfFrozen s) (hg : goodWallets s.wallets) :
    (∀ u otype sd qty price oid now s', 0 ≤ qty → (∀ p, price = some p → 0 ≤ p) →
       placeOrder pair s u otype sd qty price oid now = .ok s' → wfFrozen s') ∧
    (∀ oid o s', findOrder s oid = some o → o.filled_quantity ≤ o.quantity →
       (∀ p, o.price = some p → 0 ≤ p) →
       cancelOrder pair s oid = .ok s' → wfFrozen s') ∧
    (∀ oid, wfFrozen (cancelOrderView s oid)) ∧
    (∀ oid s', matchLimitOrder pair s oid = .ok s' → wfFrozen s') ∧
    (∀ oid s', matchMarketOrder pair s oid = .ok s' → wfFrozen s') :=
  ⟨fun _ _ _ _ _ _ _ _ hq hp h => placeOrder_wfFrozen hwf hg hq hp h,
   fun _ _ _ ho hfq hp h => cancelOrder_wfFrozen hwf ho hfq hp h,
   fun oid => wfFrozen_wallets_eq (cancelOrderView_wallets s oid) hwf,
   fun _ s' h => by rw [matchLimitOrder_ok_elim h]; exact hwf,
   fun _ _ h => wfFrozen_wallets_eq (matchMarketOrder_ok_elim h).1 hwf⟩

def c9s0 : State := ⟨[⟨1, 20, 100, 20⟩], [], [], none⟩

def c9res : Except Err State := placeOrder pair0 c9s0 1 .limit .buy 2 (some 10) 1 0

theorem claim_C9_witness :
    wfFrozen c9s0 ∧ goodWallets c9s0.wallets ∧ exceptIsOk c9res = true ∧
    wfFrozen (stateOf c9res) :=
  ⟨by decide, by decide, by decide,
   (claim_C9_freeze_bound pair0 c9s0 (by decide) (by decide)).1
     1 .limit .buy 2 (some 10) 1 0 (stateOf c9res) (by decide)
     (fun p hps => by
       injection hps with hps
       rw [← hps]
       decide)
     (by rfl)⟩

/-! ### Claim C2

The FOK scenario: Alice (user 1) has placed `BUY 10 @ 50000 FOK`, freezing
500 000 of her 600 000 quote; the book holds only Bob's (user 2)
`SELL 3 @ 50000`. -/

def c2s : State :=
  ⟨[⟨1, 20, 600000, 500000⟩, ⟨2, 10, 3, 3⟩],
   [⟨1, 2, .limit, .sell, some 50000, 3, 0, .pending, .GTC, 1⟩,
    ⟨2, 1, .limit, .buy, some 50000, 10, 0, .pending, .FOK, 2⟩],
   [], none⟩

def c2aggr : Order := ⟨2, 1, .limit, .buy, some 50000, 10, 0, .pending, .FOK, 2⟩

/-- Claim C2 counterexample: the FOK buy of 10 against only 3 of resting
liquidity is never transitioned to `rejected` — there is no FOK dry-run at
all.  The engine starts filling it like any other order and dies at the
broken trade creation, so the whole match rolls back: the committed state is
`c2s` itself, where the order is still `pending` (not `rejected`) and
Alice's quote balance is still 600 000. -/
theorem claim_C2_counterexample :
    (findOrder c2s 2).map (fun o => o.time_in_force) = some TIF.FOK ∧
    matchLimitOrder pair0 c2s 2 = .error .typeError ∧
    statusOf c2s 2 = some .pending ∧
    ¬statusOf c2s 2 = some .rejected ∧
    balOf c2s 1 20 = 600000 :=
  ⟨by decide, by rfl, by decide, by decide, by decide⟩

/-- Claim C2 amended: `time_in_force` is stored on the order but never read
by the matching engine, so a pending FOK limit order is processed exactly
like a GTC order.  Whenever it has positive remaining quantity and at least
one eligible resting order, the first loop iteration raises `TypeError` at
the broken trade creation and the atomic block rolls back — zero committed
fills and unchanged wallets, as the claim says, but the order stays
`pending`; and any matching call that returns normally returns the state
unchanged, so no order is ever transitioned to `rejected`. -/
theorem claim_C2_fok_never_rejected (pair : TradingPair) (s : State) (oid : OrderId)
    (o : Order) (ap : Amount) (c : Order) (cs : List Order)
    (ho : findOrder s oid = some o)
    (_htif : o.time_in_force = TIF.FOK)
    (htype : o.order_type = OrderType.limit)
    (hst : o.status = OStatus.pending)
    (hap : o.price = some ap)
    (hrem : 0 < o.quantity - o.filled_quantity)
    (hc : limitCandidates s o ap = c :: cs) :
    (∃ e, matchLimitOrder pair s oid = .error e) ∧
    (∀ s', matchLimitOrder pair s oid = .ok s' → s' = s) :=
  ⟨matchLimitOrder_abort pair s oid o ap c cs ho htype hst hap hrem hc,
   fun _ h => matchLimitOrder_ok_elim h⟩

theorem claim_C2_witness :
    (∃ e, matchLimitOrder pair0 c2s 2 = .error e) ∧
    (∀ s', matchLimitOrder pair0 c2s 2 = .ok s' → s' = c2s) :=
  claim_C2_fok_never_rejected pair0 c2s 2 c2aggr 50000
    ⟨1, 2, .limit, .sell, some 50000, 3, 0, .pending, .GTC, 1⟩ []
    (by rfl) (by decide) (by decide) (by decide) (by decide) (by decide) (by decide)

/-! ### Claim C3 -/

theorem candPriority_total (sd : Side) (a b : Order) :
    candPriority sd a b ∨ candPriority sd b a := by
  cases sd <;> unfold candPriority buyPriority sellPriority
  · rcases lt_trichotomy (priceKey a) (priceKey b) with h | h | h
    · exact Or.inl (Or.inl h)
    · rcases Nat.le_total a.created_at b.created_at with hle | hle
      · exact Or.inl (Or.inr ⟨h, hle⟩)
      · exact Or.inr (Or.inr ⟨h.symm, hle⟩)
    · exact Or.inr (Or.inl h)
  · rcases lt_trichotomy (priceKey a) (priceKey b) with h | h | h
    · exact Or.inr (Or.inl h)
    · rcases Nat.le_total a.created_at b.created_at with hle | hle
      · exact Or.inl (Or.inr ⟨h, hle⟩)
      · exact Or.inr (Or.inr ⟨h.symm, hle⟩)
    · exact Or.inl (Or.inl h)

theorem candPriority_trans (sd : Side) (a b c : Order) (hab : candPriority sd a b)
    (hbc : candPriority sd b c) : candPriority sd a c := by
  cases sd <;> unfold candPriority buyPriority sellPriority at hab hbc ⊢
  · rcases hab with h1 | ⟨he1, hc1⟩
    · rcases hbc with h2 | ⟨he2, -⟩
      · exact Or.inl (h1.trans h2)
      · exact Or.inl (lt_of_lt_of_eq h1 he2)
    · rcases hbc with h2 | ⟨he2, hc2⟩
      · exact Or.inl (lt_of_eq_of_lt he1 h2)
      · exact Or.inr ⟨he1.trans he2, hc1.trans hc2⟩
  · rcases hab with h1 | ⟨he1, hc1⟩
    · rcases hbc with h2 | ⟨he2, -⟩
      · exact Or.inl (h2.trans h1)
      · exact Or.inl (lt_of_eq_of_lt he2.symm h1)
    · rcases hbc with h2 | ⟨he2, hc2⟩
      · exact Or.inl (lt_of_lt_of_eq h2 he1.symm)
      · exact Or.inr ⟨he1.trans he2, hc1.trans hc2⟩

instance candPriorityIsTotal (sd : Side) : IsTotal Order (candPriority sd) :=
  ⟨candPriority_total sd⟩

instance candPriorityIsTrans (sd : Side) : IsTrans Order (candPriority sd) :=
  ⟨candPriority_trans sd⟩

theorem sorted_sortCands (sd : Side) (l : List Order) :
    List.Sorted (candPriority sd) (sortCands sd l) :=
  List.sorted_insertionSort (candPriority sd) l

theorem eligibleLimit_iff (aggr : Order) (ap : Amount) (o : Order) :
    eligibleLimit aggr ap o = true ↔
      eligibleMarket aggr o = true ∧
        ∃ rp, o.price = some rp ∧
          (aggr.side = Side.buy → rp ≤ ap) ∧ (aggr.side = Side.sell → ap ≤ rp) := by
  unfold eligibleLimit
  cases hp : o.price with
  | none => simp
  | some rp => cases hs : aggr.side <;> simp [hs]

/-- Claim C3 amended: the candidate resting orders the engine enumerates are
exactly the opposite-side limit orders in status `pending` or
`partial_filled`, not owned by the aggressor's user, satisfying the price
constraint (`price ≤ limit` for buys, `≥` for sells, unconstrained for
market orders), sorted best price first with ties broken by earliest
`created_at` — but none of them is ever consumed: an aggressor with positive
remaining quantity and a nonempty candidate list makes the match raise at
the first trade creation (rolling everything back), and a matching call that
returns normally leaves every resting order, wallet and trade row exactly as
it found them. -/
theorem claim_C3_candidate_set (pair : TradingPair) (s : State) (oid : OrderId)
    (aggr : Order) (ap : Amount)
    (hfind : findOrder s oid = some aggr) (hst : aggr.status = OStatus.pending) :
    (∀ o, o ∈ marketCandidates s aggr ↔
       o ∈ s.orders ∧ o.side = oppositeSide aggr.side ∧
         (o.status = OStatus.pending ∨ o.status = OStatus.partial_filled) ∧
         o.order_type = OrderType.limit ∧ ¬o.user = aggr.user) ∧
    (∀ o, o ∈ limitCandidates s aggr ap ↔
       o ∈ s.orders ∧ o.side = oppositeSide aggr.side ∧
         (o.status = OStatus.pending ∨ o.status = OStatus.partial_filled) ∧
         o.order_type = OrderType.limit ∧ ¬o.user = aggr.user ∧
         ∃ rp, o.price = some rp ∧
           (aggr.side = Side.buy → rp ≤ ap) ∧ (aggr.side = Side.sell → ap ≤ rp)) ∧
    List.Sorted (candPriority aggr.side) (marketCandidates s aggr) ∧
    List.Sorted (candPriority aggr.side) (limitCandidates s aggr ap) ∧
    (aggr.order_type = OrderType.limit → aggr.price = some ap →
       0 < aggr.quantity - aggr.filled_quantity →
       ∀ c cs, limitCandidates s aggr ap = c :: cs →
       ∃ e, matchLimitOrder pair s oid = .error e) ∧
    (aggr.order_type = OrderType.market →
       0 < aggr.quantity - aggr.filled_quantity →
       ∀ c cs, marketCandidates s aggr = c :: cs →
       ∃ e, matchMarketOrder pair s oid = .error e) ∧
    (∀ s', matchLimitOrder pair s oid = .ok s' → s' = s) ∧
    (∀ s', matchMarketOrder pair s oid = .ok s' →
       s'.wallets = s.wallets ∧ s'.trades = s.trades) := by
  refine ⟨?_, ?_, ?_, ?_, ?_, ?_, ?_, ?_⟩
  · intro o
    rw [mem_marketCandidates, eligibleMarket_iff]
  · intro o
    rw [mem_limitCandidates, eligibleLimit_iff, eligibleMarket_iff]
    constructor
    · rintro ⟨hmem, ⟨h1, h2, h3, h4⟩, hex⟩
      exact ⟨hmem, h1, h2, h3, h4, hex⟩
    · rintro ⟨hmem, h1, h2, h3, h4, hex⟩
      exact ⟨hmem, ⟨h1, h2, h3, h4⟩, hex⟩
  · exact sorted_sortCands aggr.side _
  · exact sorted_sortCands aggr.side _
  · intro htype hap hrem c cs hc
    exact matchLimitOrder_abort pair s oid aggr ap c cs hfind htype hst hap hrem hc
  · intro htype hrem c cs hc
    exact matchMarketOrder_abort pair s oid aggr c cs hfind htype hst hrem hc
  · intro s' h
    exact matchLimitOrder_ok_elim h
  · intro s' h
    exact matchMarketOrder_ok_elim h

/-- Claim C3 counterexample: in the crossed-limit scenario Bob's resting
sell is the (only, best-priced) eligible candidate, yet it is never
consumed: the match raises `TypeError` and rolls back, leaving the resting
order `pending` with zero filled quantity in the committed state. -/
theorem claim_C3_counterexample :
    (⟨1, 2, .limit, .sell, some 50000, 1, 0, .pending, .GTC, 1⟩ : Order) ∈
      limitCandidates c5s2 ⟨2, 1, .limit, .buy, some 50000, 1, 0, .pending, .GTC, 2⟩ 50000 ∧
    matchLimitOrder pair0 c5s2 2 = .error .typeError ∧
    statusOf c5s2 1 = some .pending ∧
    (findOrder c5s2 1).map (fun o => o.filled_quantity) = some 0 :=
  ⟨by decide, by rfl, by decide, by decide⟩

theorem claim_C3_witness :
    ∃ e, matchLimitOrder pair0 c5s2 2 = .error e :=
  (claim_C3_candidate_set pair0 c5s2 2
      ⟨2, 1, .limit, .buy, some 50000, 1, 0, .pending, .GTC, 2⟩ 50000
      (by rfl) rfl).2.2.2.2.1 rfl (by rfl) (by decide)
    ⟨1, 2, .limit, .sell, some 50000, 1, 0, .pending, .GTC, 1⟩ [] (by decide)

/-! ### Claim C4 -/

/-- Balance of the (user, currency) wallet in a wallet list, zero when the
wallet does not exist. -/
def balL (ws : List Wallet) (u : UserId) (c : CurrencyId) : Amount :=
  ((findWallet ws u c).getD ⟨u, c, 0, 0⟩).balance

theorem balOf_eq_balL (s : State) (u : UserId) (c : CurrencyId) :
    balOf s u c = balL s.wallets u c := by
  unfold balOf balL
  cases h : findWallet s.wallets u c <;> simp [h]

theorem balL_updW_same {ws : List Wallet} {u : UserId} {c : CurrencyId} {w : Wallet}
    (db df : Amount) (h : findWallet ws u c = some w) :
    balL (updW ws u c db df) u c = balL ws u c + db := by
  unfold balL
  rw [findWallet_updW_same db df h, h]
  rfl

theorem balL_updW_ne {ws : List Wallet} {u c u' c' : Nat} (db df : Amount)
    (h : ¬(u' = u ∧ c' = c)) :
    balL (updW ws u c db df) u' c' = balL ws u' c' := by
  unfold balL
  rw [findWallet_updW_ne db df h]

theorem balL_credit_same (ws : List Wallet) (u : UserId) (c : CurrencyId) (amt : Amount) :
    balL (creditWallet ws u c amt) u c = balL ws u c + amt := by
  unfold balL
  rw [findWallet_credit_same]
  simp

theorem balL_credit_ne {ws : List Wallet} {u c u' c' : Nat} (amt : Amount)
    (h : ¬(u' = u ∧ c' = c)) :
    balL (creditWallet ws u c amt) u' c' = balL ws u' c' := by
  unfold balL
  rw [findWallet_credit_ne amt h]

/-- Claim C4 (code bug): inside one matching iteration both `fill_order`
calls settle at the counter (resting) order's price — the buyer pays
`q * p` of quote and receives `q` of base, the seller symmetrically, with
`p` the counter order's limit price — but the iteration then raises
`TypeError` at `Trade.objects.create` (stale `timestamp` keyword, unset
`trading_pair`/`trade_id`), so it never returns: even the in-transaction
states carry no new trade row, and the enclosing atomic block rolls the
settlement back.  No trade with the claimed price (nor any trade at all) is
ever committed. -/
theorem claim_C4_maker_price (pair : TradingPair) (s : State) (aggrId : OrderId)
    (rem : Amount) (counter : Order) (ep : Amount) (s1 s2 : State) (aggr : Order)
    (hep : counter.price = some ep)
    (hf1 : fillOrder pair s aggrId (stepQty rem counter) ep = .ok s1)
    (hf2 : fillOrder pair s1 counter.id (stepQty rem counter) ep = .ok s2)
    (ha : findOrder s aggrId = some aggr)
    (hc : findOrder s counter.id = some counter)
    (husers : counter.user ≠ aggr.user)
    (hbq : pair.base_currency ≠ pair.quote_currency)
    (hopp : counter.side = oppositeSide aggr.side) :
    matchStep pair s aggrId rem counter = .error .typeError ∧
    s2.trades = s.trades ∧
    (aggr.side = Side.buy →
      balOf s2 aggr.user pair.quote_currency
        = balOf s aggr.user pair.quote_currency - stepQty rem counter * ep ∧
      balOf s2 counter.user pair.quote_currency
        = balOf s counter.user pair.quote_currency + stepQty rem counter * ep ∧
      balOf s2 aggr.user pair.base_currency
        = balOf s aggr.user pair.base_currency + stepQty rem counter ∧
      balOf s2 counter.user pair.base_currency
        = balOf s counter.user pair.base_currency - stepQty rem counter) ∧
    (aggr.side = Side.sell →
      balOf s2 aggr.user pair.base_currency
        = balOf s aggr.user pair.base_currency - stepQty rem counter ∧
      balOf s2 counter.user pair.base_currency
        = balOf s counter.user pair.base_currency + stepQty rem counter ∧
      balOf s2 aggr.user pair.quote_currency
        = balOf s aggr.user pair.quote_currency + stepQty rem counter * ep ∧
      balOf s2 counter.user pair.quote_currency
        = balOf s counter.user pair.quote_currency - stepQty rem counter * ep) := by
  obtain ⟨oA, hoA, hordA, htrA, -, hcaseA⟩ := fillOrder_ok_elim hf1
  rw [ha] at hoA
  injection hoA with hoA
  subst hoA
  obtain ⟨oB, hoB, hordB, htrB, -, hcaseB⟩ := fillOrder_ok_elim hf2
  have hoB' : findOrder s1 counter.id =
      some (applyFillFn aggrId (stepQty rem counter) counter) := by
    rw [findOrder_map_preserve _ (applyFillFn_id _ _) hordA counter.id, hc]
    rfl
  rw [hoB'] at hoB
  injection hoB with hoB
  have hBside : oB.side = counter.side := by rw [← hoB, applyFillFn_side]
  have hBuser : oB.user = counter.user := by rw [← hoB, applyFillFn_user]
  have hstep : matchStep pair s aggrId rem counter = .error .typeError := by
    unfold matchStep
    rw [hep]
    show (match fillOrder pair s aggrId (stepQty rem counter) ep with
      | .error e => (Except.error e : Except Err (State × Amount))
      | .ok s1x =>
        match fillOrder pair s1x counter.id (stepQty rem counter) ep with
        | .error e => .error e
        | .ok _ => .error .typeError) = _
    rw [hf1]
    show (match fillOrder pair s1 counter.id (stepQty rem counter) ep with
      | .error e => (Except.error e : Except Err (State × Amount))
      | .ok _ => .error .typeError) = _
    rw [hf2]
  have htr2 : s2.trades = s.trades := htrB.trans htrA
  have hau : aggr.user ≠ counter.user := fun he => husers he.symm
  have kQQ : ¬(aggr.user = counter.user ∧ pair.quote_currency = pair.quote_currency) :=
    fun hx => hau hx.1
  have kQB : ¬(aggr.user = counter.user ∧ pair.quote_currency = pair.base_currency) :=
    fun hx => hau hx.1
  have kBB : ¬(aggr.user = counter.user ∧ pair.base_currency = pair.base_currency) :=
    fun hx => hau hx.1
  have kBQ : ¬(aggr.user = counter.user ∧ pair.base_currency = pair.quote_currency) :=
    fun hx => hau hx.1
  have kQBa : ¬(aggr.user = aggr.user ∧ pair.quote_currency = pair.base_currency) :=
    fun hx => hbq hx.2.symm
  have kBQa : ¬(aggr.user = aggr.user ∧ pair.base_currency = pair.quote_currency) :=
    fun hx => hbq hx.2
  have kQBc : ¬(counter.user = counter.user ∧ pair.quote_currency = pair.base_currency) :=
    fun hx => hbq hx.2.symm
  have kBQc : ¬(counter.user = counter.user ∧ pair.base_currency = pair.quote_currency) :=
    fun hx => hbq hx.2
  have kcQQ : ¬(counter.user = aggr.user ∧ pair.quote_currency = pair.quote_currency) :=
    fun hx => husers hx.1
  have kcQB : ¬(counter.user = aggr.user ∧ pair.quote_currency = pair.base_currency) :=
    fun hx => husers hx.1
  have kcBB : ¬(counter.user = aggr.user ∧ pair.base_currency = pair.base_currency) :=
    fun hx => husers hx.1
  have kcBQ : ¬(counter.user = aggr.user ∧ pair.base_currency = pair.quote_currency) :=
    fun hx => husers hx.1
  refine ⟨hstep, htr2, ?_, ?_⟩
  · intro hside
    have hcside : counter.side = Side.sell := by rw [hopp, hside]; rfl
    rcases hcaseA with ⟨-, ⟨wA, hwA⟩, hws1⟩ | ⟨hbad, -, -⟩
    swap
    · rw [hside] at hbad
      exact absurd hbad (by simp)
    rcases hcaseB with ⟨hbad, -, -⟩ | ⟨-, ⟨wB, hwB⟩, hws2⟩
    · rw [hBside, hcside] at hbad
      exact absurd hbad (by simp)
    rw [hBuser] at hws2 hwB
    refine ⟨?_, ?_, ?_, ?_⟩
    · rw [balOf_eq_balL, balOf_eq_balL, hws2, hws1]
      rw [balL_credit_ne _ kQQ, balL_updW_ne _ _ kQB,
        balL_credit_ne _ kQBa, balL_updW_same _ _ hwA]
      ring
    · rw [balOf_eq_balL, balOf_eq_balL, hws2, hws1]
      rw [balL_credit_same, balL_updW_ne _ _ kQBc,
        balL_credit_ne _ kcQB, balL_updW_ne _ _ kcQQ]
    · rw [balOf_eq_balL, balOf_eq_balL, hws2, hws1]
      rw [balL_credit_ne _ kBQ, balL_updW_ne _ _ kBB,
        balL_credit_same, balL_updW_ne _ _ kBQa]
    · rw [balOf_eq_balL, balOf_eq_balL, hws2]
      rw [balL_credit_ne _ kBQc, balL_updW_same _ _ hwB, hws1]
      rw [balL_credit_ne _ kcBB, balL_updW_ne _ _ kcBQ]
      ring
  · intro hside
    have hcside : counter.side = Side.buy := by rw [hopp, hside]; rfl
    rcases hcaseA with ⟨hbad, -, -⟩ | ⟨-, ⟨wA, hwA⟩, hws1⟩
    · rw [hside] at hbad
      exact absurd hbad (by simp)
    rcases hcaseB with ⟨-, ⟨wB, hwB⟩, hws2⟩ | ⟨hbad, -, -⟩
    swap
    · rw [hBside, hcside] at hbad
      exact absurd hbad (by simp)
    rw [hBuser] at hws2 hwB
    refine ⟨?_, ?_, ?_, ?_⟩
    · rw [balOf_eq_balL, balOf_eq_balL, hws2, hws1]
      rw [balL_credit_ne _ kBB, balL_updW_ne _ _ kBQ,
        balL_credit_ne _ kBQa, balL_updW_same _ _ hwA]
      ring
    · rw [balOf_eq_balL, balOf_eq_balL, hws2, hws1]
      rw [balL_credit_same, balL_updW_ne _ _ kBQc,
        balL_credit_ne _ kcBQ, balL_updW_ne _ _ kcBB]
    · rw [balOf_eq_balL, balOf_eq_balL, hws2, hws1]
      rw [balL_credit_ne _ kQB, balL_updW_ne _ _ kQQ,
        balL_credit_same, balL_updW_ne _ _ kQBa]
    · rw [balOf_eq_balL, balOf_eq_balL, hws2]
      rw [balL_credit_ne _ kQBc, balL_updW_same _ _ hwB, hws1]
      rw [balL_credit_ne _ kcQQ, balL_updW_ne _ _ kcQB]
      ring

def c4counter : Order := ⟨1, 2, .limit, .sell, some 50000, 1, 0, .pending, .GTC, 1⟩

def c4aggr : Order := ⟨2, 1, .limit, .buy, some 50000, 1, 0, .pending, .GTC, 2⟩

def c4s1 : State := stateOf (fillOrder pair0 c5s2 2 (stepQty 1 c4counter) 50000)

def c4s2 : State := stateOf (fillOrder pair0 c4s1 1 (stepQty 1 c4counter) 50000)

theorem claim_C4_witness :
    matchStep pair0 c5s2 2 1 c4counter = .error .typeError ∧
    c4s2.trades = c5s2.trades ∧
    (c4aggr.side = Side.buy →
      balOf c4s2 c4aggr.user pair0.quote_currency
        = balOf c5s2 c4aggr.user pair0.quote_currency - stepQty 1 c4counter * 50000 ∧
      balOf c4s2 c4counter.user pair0.quote_currency
        = balOf c5s2 c4counter.user pair0.quote_currency + stepQty 1 c4counter * 50000 ∧
      balOf c4s2 c4aggr.user pair0.base_currency
        = balOf c5s2 c4aggr.user pair0.base_currency + stepQty 1 c4counter ∧
      balOf c4s2 c4counter.user pair0.base_currency
        = balOf c5s2 c4counter.user pair0.base_currency - stepQty 1 c4counter) ∧
    (c4aggr.side = Side.sell →
      balOf c4s2 c4aggr.user pair0.base_currency
        = balOf c5s2 c4aggr.user pair0.base_currency - stepQty 1 c4counter ∧
      balOf c4s2 c4counter.user pair0.base_currency
        = balOf c5s2 c4counter.user pair0.base_currency + stepQty 1 c4counter ∧
      balOf c4s2 c4aggr.user pair0.quote_currency
        = balOf c5s2 c4aggr.user pair0.quote_currency + stepQty 1 c4counter * 50000 ∧
      balOf c4s2 c4counter.user pair0.quote_currency
        = balOf c5s2 c4counter.user pair0.quote_currency - stepQty 1 c4counter * 50000) :=
  claim_C4_maker_price pair0 c5s2 2 1 c4counter 50000 c4s1 c4s2 c4aggr (by rfl) (by rfl)
    (by rfl) (by rfl) (by rfl) (by decide) (by decide) (by decide)

end Finora
